import Mathlib

/-!
Verification of the libsmartcols rendering engine (libsmartcols/src/print.c).

The development is a shallow embedding of the table-printing code: the data
model (tables, columns, lines, cells, group lanes, pending-data cursors) and
the rendering functions are translated from the C source.  External
collaborators that the source consumes through an interface (multi-byte
width/truncation services, the JSON token writer, the shell-quoting helpers,
accessor macros living in headers that are not part of the repository slice)
are modelled at their interface contract, each marked in its doc comment.

String model: a byte of cell text is either a valid character occupying one
screen cell and one byte, or a malformed multi-byte byte on which the
truncation service reports its sentinel failure.
-/

/-- Byte of cell text: `ch c` is a valid character occupying one screen cell
and one byte; `bad` is a byte of a malformed multi-byte sequence (the spec's
truncation collaborator returns a sentinel failure value on invalid
encoding). -/
inductive Mb where
  | ch (c : Char)
  | bad
deriving Repr, DecidableEq

/-- Byte strings of the model. -/
abbrev Str := List Mb

/-- Conversion of a Lean string literal into the byte-string model. -/
def mstr (s : String) : Str := s.toList.map Mb.ch

/-- Display width of a byte span in screen cells (external collaborator
mbs_width / mbs_safe_width of the spec's multi-byte text services; every
modelled byte occupies one screen cell). -/
def mwidth (s : Str) : Nat := s.length

/-- Whether a byte is a malformed multi-byte byte. -/
def isBadMb : Mb → Bool
  | .bad => true
  | .ch _ => false

/-- Whether a byte span is validly encoded. -/
def validStr (s : Str) : Bool := !(s.any isBadMb)

/-- External collaborator mbs_truncate: truncate a span to at most `len`
screen cells, returning the truncated span together with the number of bytes
consumed (which also becomes the updated cell count, since every modelled
byte is one cell wide), or `none` — the C sentinel `(size_t) -1` — when the
span is malformed. -/
def mbs_truncate (s : Str) (len : Nat) : Option (Str × Nat) :=
  if validStr s then some (s.take len, (s.take len).length) else none

/-- Group-lane states of a grpset slot (gr->state in the source). -/
inductive GState where
  | first_member
  | middle_member
  | last_member
  | cont_members
  | middle_child
  | last_child
  | cont_children
deriving Repr, DecidableEq

/-- Column output types for JSON (SCOLS_JSON_*). -/
inductive JsonType where
  | str
  | number
  | boolean
  | array_string
  | array_number
deriving Repr, DecidableEq

/-- Output formats (SCOLS_FMT_*); `shellExport` is SCOLS_FMT_EXPORT. -/
inductive Fmt where
  | human
  | raw
  | shellExport
  | json
deriving Repr, DecidableEq

/-- One (row, column) value: text and an optional color override. -/
structure Cell where
  data : Option Str := none
  color : Option Str := none
deriving Repr, DecidableEq

/-- Ancestry of a line in the tree: `root` models ln->parent == NULL;
`child p last` models a line whose parent has ancestry `p` and whose
is-last-child predicate is `last`. -/
inductive LnPath where
  | root
  | child (p : LnPath) (last : Bool)
deriving Repr, DecidableEq

/-- A line of the table as the renderer reads it: one optional cell per
column, the ancestry chain, whether ln_branch (the child list) is non-empty,
and an optional color override. -/
structure Row where
  cells : List (Option Cell) := []
  path : LnPath := .root
  hasChildren : Bool := false
  color : Option Str := none
deriving Repr, DecidableEq

/-- A column: sequence index, final display width, capability flags, color,
header cell, JSON type and the optional custom chunking function
(wrap_nextchunk, modelled as returning the byte offset where the next chunk
starts, or none for no further chunk). -/
structure Column where
  seqnum : Nat := 0
  width : Nat := 0
  isTree : Bool := false
  isRight : Bool := false
  isTrunc : Bool := false
  isWrap : Bool := false
  isHidden : Bool := false
  isGroups : Bool := false
  color : Option Str := none
  header : Cell := {}
  json_type : JsonType := .str
  wrap_nextchunk : Option (Str → Option Nat) := none

/-- Decoration symbols (struct libscols_symbols); `none` fields fall back to
the defaults hard-coded in print.c's accessor macros. -/
structure Symbols where
  title_padding : Option Str := none
  tree_branch : Option Str := none
  tree_vert : Option Str := none
  tree_right : Option Str := none
  group_vert : Option Str := none
  group_horz : Option Str := none
  group_first_member : Option Str := none
  group_last_member : Option Str := none
  group_middle_member : Option Str := none
  group_middle_child : Option Str := none
  group_last_child : Option Str := none
  cell_padding : Option Str := none
deriving Repr, DecidableEq

/-- The table with its render configuration.  `lines` is the flat list the
range walker iterates; `grpset` is the group-lane slot array; the boolean
flags mirror the scols_table_is_* accessors read by print.c. -/
structure Table where
  cols : List Column := []
  lines : List Row := []
  format : Fmt := .human
  symbols : Symbols := {}
  colsep_sym : Option Str := none
  linesep_sym : Option Str := none
  maxout : Bool := false
  minout : Bool := false
  no_headings : Bool := false
  no_linesep : Bool := false
  no_encode : Bool := false
  colors_wanted : Bool := false
  padding_debug : Bool := false
  header_repeat : Bool := false
  is_dummy_print : Bool := false
  has_groups_flag : Bool := false
  is_tree_flag : Bool := false
  termheight : Nat := 0
  grpset : List (Option GState) := []

/-- Fallback accessor titlepadding_symbol (print.c line 35). -/
def titlepadding_symbol (tb : Table) : Str := tb.symbols.title_padding.getD (mstr " ")

/-- Fallback accessor branch_symbol (print.c line 36). -/
def branch_symbol (tb : Table) : Str := tb.symbols.tree_branch.getD (mstr "|-")

/-- Fallback accessor vertical_symbol (print.c line 37). -/
def vertical_symbol (tb : Table) : Str := tb.symbols.tree_vert.getD (mstr "| ")

/-- Fallback accessor right_symbol (print.c line 38). -/
def right_symbol (tb : Table) : Str := tb.symbols.tree_right.getD (mstr "`-")

/-- Fallback accessor grp_vertical_symbol (print.c line 40). -/
def grp_vertical_symbol (tb : Table) : Str := tb.symbols.group_vert.getD (mstr "|")

/-- Fallback accessor grp_horizontal_symbol (print.c line 41). -/
def grp_horizontal_symbol (tb : Table) : Str := tb.symbols.group_horz.getD (mstr "-")

/-- Fallback accessor grp_m_first_symbol (print.c line 42). -/
def grp_m_first_symbol (tb : Table) : Str := tb.symbols.group_first_member.getD (mstr ",->")

/-- Fallback accessor grp_m_last_symbol (print.c line 43). -/
def grp_m_last_symbol (tb : Table) : Str := tb.symbols.group_last_member.getD (mstr "\\->")

/-- Fallback accessor grp_m_middle_symbol (print.c line 44). -/
def grp_m_middle_symbol (tb : Table) : Str := tb.symbols.group_middle_member.getD (mstr "|->")

/-- Fallback accessor grp_c_middle_symbol (print.c line 45). -/
def grp_c_middle_symbol (tb : Table) : Str := tb.symbols.group_middle_child.getD (mstr "|-")

/-- Fallback accessor grp_c_last_symbol (print.c line 46). -/
def grp_c_last_symbol (tb : Table) : Str := tb.symbols.group_last_child.getD (mstr "`-")

/-- Fallback accessor cellpadding_symbol (print.c line 48): the padding-debug
dot, the configured cell padding, or a space. -/
def cellpadding_symbol (tb : Table) : Str :=
  if tb.padding_debug then mstr "." else tb.symbols.cell_padding.getD (mstr " ")

/-- Modelled from the spec: the column separator accessor colsep(tb)
(smartcolsP.h, not under src/) — the configured separator or a single
space. -/
def colsep (tb : Table) : Str := tb.colsep_sym.getD (mstr " ")

/-- Modelled from the spec: the line separator accessor linesep(tb)
(smartcolsP.h, not under src/) — the configured separator or a newline. -/
def linesep (tb : Table) : Str := tb.linesep_sym.getD (mstr "\n")

/-- Modelled from the spec: scols_column_is_customwrap (column.c, not under
src/) — a column with the wrap flag and a caller-provided chunking function
(spec 4.1 step 3). -/
def scols_column_is_customwrap (cl : Column) : Bool :=
  cl.isWrap && cl.wrap_nextchunk.isSome

/-- Modelled from the spec: is_last_column (smartcolsP.h, not under src/).
The spec speaks throughout of the "last visible column", so a column is last
when every column after it is hidden.  Column positions are identified with
seqnum by the spec's 3 invariant (sequence indices contiguous 0..ncols-1). -/
def is_last_column (tb : Table) (cl : Column) : Bool :=
  (tb.cols.drop (cl.seqnum + 1)).all (fun c => c.isHidden)

/-- Modelled from the spec: is_last_child (smartcolsP.h, not under src/); a
line with no parent counts as last.  print.c only consults it under an
ln->parent guard, except in the tree walker. -/
def is_last_child : LnPath → Bool
  | .root => true
  | .child _ last => last

/-- Lookup scols_line_get_cell: the cell at a column's sequence index, NULL
past the end. -/
def scols_line_get_cell (ln : Row) (i : Nat) : Option Cell :=
  (ln.cells.get? i).join

/-- Accessor scols_cell_get_data. -/
def scols_cell_get_data (ce : Cell) : Option Str := ce.data

/-- Per-column pending-data state (pending_data_buf / pending_data /
pending_data_sz): `buf` is the owned heap buffer (none once freed, which in
the source coincides with the pending_data cursor being NULL), `off` the
cursor's offset into the buffer, `sz` the remaining byte count. -/
structure ColPending where
  buf : Option Str := none
  off : Nat := 0
  sz : Nat := 0
deriving Repr, DecidableEq

/-- Function set_pending_data (print.c lines 338-355): a non-empty text is
copied into a fresh owned buffer with the cursor at its start; a null/empty
text frees the buffer and nulls the cursor.  The size field is assigned
unconditionally, as in the source. -/
def set_pending_data (data : Str) (sz : Nat) : ColPending :=
  if data ≠ [] then { buf := some data, off := 0, sz := sz }
  else { buf := none, off := 0, sz := sz }

/-- Function step_pending_data (print.c lines 358-368): consuming at least
the remaining bytes empties the state via set_pending_data(NULL, 0);
otherwise the cursor advances in place and the remaining size shrinks. -/
def step_pending_data (p : ColPending) (bytes : Nat) : ColPending :=
  if p.sz ≤ bytes then set_pending_data [] 0
  else { p with off := p.off + bytes, sz := p.sz - bytes }

/-- Mutable render state threaded through the print pass: the output byte
stream, the used terminal-line counter, the per-column pending states
(indexed like the column list) and the header bookkeeping fields. -/
structure RState where
  out : Str := []
  termlines_used : Nat := 0
  pends : List ColPending := []
  header_printed : Bool := false
  header_next : Nat := 0
deriving Repr, DecidableEq

/-- Read a column's pending state from the render state. -/
def getPend (st : RState) (i : Nat) : ColPending := (st.pends.get? i).getD {}

/-- Write a column's pending state into the render state. -/
def setPend (st : RState) (i : Nat) (p : ColPending) : RState :=
  { st with pends := st.pends.set i p }

/-- Scratch buffer (struct libscols_buffer) as the renderer uses it: the
accumulated bytes and the recorded art length.  Allocation is modelled as
infallible; encoding (buffer_get_safe_data) is the identity on the modelled
bytes, so the safe data is `data` itself, its width `mwidth data`, and the
safe art size is `art_idx`. -/
structure LBuffer where
  data : Str := []
  art_idx : Nat := 0
deriving Repr, DecidableEq

/-- Function has_pending_data (print.c lines 205-218): some visible column
still has a non-null pending cursor. -/
def has_pending_data (tb : Table) (st : RState) : Bool :=
  tb.cols.any fun cl => !cl.isHidden && (getPend st cl.seqnum).buf.isSome

/-- Inner loop of is_next_columns_empty over the columns after the current
one: hidden columns are skipped, a tree column ends the scan as non-empty,
and a cell with non-empty data ends it as non-empty. -/
def next_columns_empty_go (ln : Row) : List Column → Bool
  | [] => true
  | cl :: rest =>
    if cl.isHidden then next_columns_empty_go ln rest
    else if cl.isTree then false
    else
      match (scols_line_get_cell ln cl.seqnum).bind scols_cell_get_data with
      | some d => if d ≠ [] then false else next_columns_empty_go ln rest
      | none => next_columns_empty_go ln rest

/-- Function is_next_columns_empty (print.c lines 53-89): true for the last
column, false without a line, else the scan over the following columns. -/
def is_next_columns_empty (tb : Table) (cl : Column) (ln : Option Row) : Bool :=
  if is_last_column tb cl then true
  else
    match ln with
    | none => false
    | some r => next_columns_empty_go r (tb.cols.drop (cl.seqnum + 1))

/-- Function get_cell_color (print.c lines 275-291): cell color over line
color over column color, only when colors are wanted. -/
def get_cell_color (tb : Table) (cl : Column) (ln : Option Row) (ce : Option Cell) :
    Option Str :=
  if tb.colors_wanted then
    let c1 := ce.bind Cell.color
    let c2 := if c1.isNone then ln.bind Row.color else c1
    if c2.isNone then cl.color else c2
  else none

/-- Function tree_ascii_art_to_buffer (print.c lines 92-115), returning the
art it appends: nothing for a root, else the parent chain's art followed by
two blanks for a last child or the vertical-continuation glyph otherwise. -/
def tree_ascii_art_to_buffer (tb : Table) : LnPath → Str
  | .root => []
  | .child p last =>
    tree_ascii_art_to_buffer tb p ++ (if last then mstr "  " else vertical_symbol tb)

/-- Function grpset_is_empty (print.c lines 117-131) on the slots from the
probed index: walks the slots, incrementing the shared rest counter per null
slot, and stops reporting non-empty at the first occupied slot. -/
def grpset_is_empty : List (Option GState) → Nat → Bool × Nat
  | [], rest => (true, rest)
  | none :: tl, rest => grpset_is_empty tl (rest + 1)
  | some _ :: _, rest => (false, rest)

/-- Modelled from the spec: SCOLS_GRPSET_CHUNKSIZ (smartcolsP.h, not under
src/), the fixed chunk size of the group-lane slot array. -/
def SCOLS_GRPSET_CHUNKSIZ : Nat := 3

/-- Accumulator of the group-art loop: the buffer, the current filler glyph,
the shared rest counter and the filled (terminal) flag. -/
structure GrpArtState where
  buf : Str
  filler : Str
  rest : Nat
  filled : Bool
deriving Repr, DecidableEq

/-- One chunk of the groups_ascii_art_to_buffer loop body (print.c lines
150-197): `gr` is the chunk's head slot, `after` the slots past the chunk
(index i + CHUNKSIZ onward) that grpset_is_empty probes. -/
def groups_art_chunk (tb : Table) (gr : Option GState) (after : List (Option GState))
    (s : GrpArtState) : GrpArtState :=
  match gr with
  | none =>
    { s with buf := s.buf ++ (List.replicate SCOLS_GRPSET_CHUNKSIZ (cellpadding_symbol tb)).flatten }
  | some .first_member => { s with buf := s.buf ++ grp_m_first_symbol tb }
  | some .middle_member => { s with buf := s.buf ++ grp_m_middle_symbol tb }
  | some .last_member => { s with buf := s.buf ++ grp_m_last_symbol tb }
  | some .cont_members =>
    { s with buf := s.buf ++ grp_vertical_symbol tb ++ (List.replicate 2 s.filler).flatten }
  | some .middle_child =>
    let b1 := s.buf ++ s.filler ++ grp_c_middle_symbol tb
    let e := grpset_is_empty after s.rest
    if e.1 then
      { buf := b1 ++ (List.replicate (e.2 + 1) (grp_horizontal_symbol tb)).flatten,
        filler := grp_horizontal_symbol tb, rest := e.2, filled := true }
    else
      { buf := b1, filler := grp_horizontal_symbol tb, rest := e.2, filled := s.filled }
  | some .last_child =>
    let b1 := s.buf ++ cellpadding_symbol tb ++ grp_c_last_symbol tb
    let e := grpset_is_empty after s.rest
    if e.1 then
      { buf := b1 ++ (List.replicate (e.2 + 1) (grp_horizontal_symbol tb)).flatten,
        filler := grp_horizontal_symbol tb, rest := e.2, filled := true }
    else
      { buf := b1, filler := grp_horizontal_symbol tb, rest := e.2, filled := s.filled }
  | some .cont_children =>
    { s with buf := s.buf ++ s.filler ++ grp_vertical_symbol tb ++ s.filler }

/-- The groups_ascii_art_to_buffer loop (print.c lines 149-201), walking the
slot array one chunk head at a time (the C for loop advances the index by
CHUNKSIZ); on a filled terminal state the loop breaks with no fallback,
otherwise the current filler is appended once at the end. -/
def groups_art_go (tb : Table) : List (Option GState) → GrpArtState → Str
  | [], s => s.buf ++ s.filler
  | [a], s =>
    let s1 := groups_art_chunk tb a [] s
    if s1.filled then s1.buf else s1.buf ++ s1.filler
  | [a, _], s =>
    let s1 := groups_art_chunk tb a [] s
    if s1.filled then s1.buf else s1.buf ++ s1.filler
  | a :: _ :: _ :: tl, s =>
    let s1 := groups_art_chunk tb a tl s
    if s1.filled then s1.buf else groups_art_go tb tl s1

/-- Function groups_ascii_art_to_buffer (print.c lines 133-203), appending to
`buf`: nothing without groups or for a dummy print, else the chunk walk with
the cell-padding glyph as the initial filler.  has_groups (smartcolsP.h, not
under src/) is modelled from the spec as a table flag. -/
def groups_ascii_art_to_buffer (tb : Table) (buf : Str) : Str :=
  if !tb.has_groups_flag then buf
  else if tb.is_dummy_print then buf
  else groups_art_go tb tb.grpset
    { buf := buf, filler := cellpadding_symbol tb, rest := 0, filled := false }

/-- Error code EINVAL (invalid argument). -/
def EINVAL : Int := 22

/-- Error code the model uses for -errno after a failed mbs_truncate
(EILSEQ, illegal byte sequence). -/
def EILSEQ : Int := 84

/-- Color reset sequence UL_COLOR_RESET. -/
def ulColorReset : Str := mstr "\x1b[0m"

/-- Emission of a text span under an optional color: color on, text, color
reset — the fputs sequence print.c repeats around colored data. -/
def emit_colored (color : Option Str) (d : Str) : Str :=
  match color with
  | some c => c ++ d ++ ulColorReset
  | none => d

/-- Function __cell_to_buffer (print.c lines 636-683): a non-tree column's
buffer is just the cell data; a tree column first gets group art (non-JSON),
then the parent chain's tree art plus the row's own branch or corner glyph
(non-JSON), records the art index, and appends the data. -/
def __cell_to_buffer (tb : Table) (ln : Row) (cl : Column) : LBuffer :=
  let data := (scols_line_get_cell ln cl.seqnum).bind scols_cell_get_data
  if !cl.isTree then { data := data.getD [], art_idx := 0 }
  else
    let b0 : Str :=
      if tb.format ≠ .json && cl.isGroups then groups_ascii_art_to_buffer tb [] else []
    let b1 : Str :=
      match ln.path with
      | .root => b0
      | .child p _ =>
        if tb.format = .json then b0
        else
          b0 ++ tree_ascii_art_to_buffer tb p ++
            (if is_last_child ln.path then right_symbol tb else branch_symbol tb)
    let art := if (ln.path ≠ .root || cl.isGroups) && tb.format ≠ .json then b1.length else 0
    { data := b1 ++ data.getD [], art_idx := art }

/-- Function print_empty_cell (print.c lines 221-272): tree art (or the bare
vertical glyph for a root with children) instead of data, then the shared
fill policy — skip under min-out with empty remaining columns, skip for the
last column without max-out, else pad to the column width and append the
separator for a non-last column.  The bufsz argument of the source only
sizes the scratch art buffer and has no counterpart here (allocation is
modelled infallible). -/
def print_empty_cell (tb : Table) (cl : Column) (ln : Option Row) (st : RState) : RState :=
  let artr : Str × Nat :=
    match ln with
    | some r =>
      if cl.isTree then
        match r.path with
        | .root =>
          if r.hasChildren then (vertical_symbol tb, mwidth (vertical_symbol tb)) else ([], 0)
        | .child _ _ =>
          let a0 := tree_ascii_art_to_buffer tb r.path
          let a1 := if r.hasChildren && has_pending_data tb st then a0 ++ vertical_symbol tb else a0
          (a1, mwidth a1)
      else ([], 0)
    | none => ([], 0)
  let st1 := { st with out := st.out ++ artr.1 }
  let len_pad := artr.2
  if tb.minout && is_next_columns_empty tb cl ln then st1
  else if !tb.maxout && is_last_column tb cl then st1
  else
    let st2 := { st1 with
      out := st1.out ++ (List.replicate (cl.width - len_pad) (cellpadding_symbol tb)).flatten }
    if !is_last_column tb cl then { st2 with out := st2.out ++ colsep tb } else st2

/-- Iteration of print_empty_cell over a column list (the fill loop of
print_newline_padding). -/
def print_empty_cells (tb : Table) (ln : Option Row) : List Column → RState → RState
  | [], st => st
  | c :: rest, st => print_empty_cells tb ln rest (print_empty_cell tb c ln st)

/-- Function print_newline_padding (print.c lines 304-322): a line break,
the terminal-line counter, then empty cells for every column up to and
including the current one. -/
def print_newline_padding (tb : Table) (cl : Column) (ln : Option Row) (st : RState) : RState :=
  let st1 := { st with out := st.out ++ linesep tb,
                       termlines_used := st.termlines_used + 1 }
  print_empty_cells tb ln (tb.cols.take (cl.seqnum + 1)) st1

/-- Function print_pending_data (print.c lines 371-436): nothing without a
pending cursor; a zero width is -EINVAL; the remaining tail is copied, cut by
the custom chunking function or by mbs_truncate (whose sentinel failure is
-errno, modelled as -EILSEQ), the cursor steps by the consumed bytes, the cut
is emitted under the cell color, and the shared fill policy runs. -/
def print_pending_data (tb : Table) (cl : Column) (ln : Option Row) (ce : Option Cell)
    (st : RState) : RState × Int :=
  let color := get_cell_color tb cl ln ce
  let width := cl.width
  let pd := getPend st cl.seqnum
  match pd.buf with
  | none => (st, 0)
  | some b =>
    if width = 0 then (st, -EINVAL)
    else
      let data := b.drop pd.off
      let res : Option (Str × Nat × Nat) :=
        match (if scols_column_is_customwrap cl then cl.wrap_nextchunk else none) with
        | some fn =>
          match fn data with
          | some nc => some (data.take nc, mwidth (data.take nc), nc)
          | none => (mbs_truncate data width).map fun r => (r.1, r.2, r.2)
        | none => (mbs_truncate data width).map fun r => (r.1, r.2, r.2)
      match res with
      | none => (st, -EILSEQ)
      | some (d2, len, bytes) =>
        let st1 := if bytes ≠ 0 then setPend st cl.seqnum (step_pending_data pd bytes) else st
        let st2 := { st1 with out := st1.out ++ emit_colored color d2 }
        if tb.minout && is_next_columns_empty tb cl ln then (st2, 0)
        else if !tb.maxout && is_last_column tb cl then (st2, 0)
        else
          let st3 := { st2 with
            out := st2.out ++ (List.replicate (width - len) (cellpadding_symbol tb)).flatten }
          if !is_last_column tb cl then ({ st3 with out := st3.out ++ colsep tb }, 0)
          else (st3, 0)

/-- Modelled from the spec: the JSON token writer's name part (ul_jsonwrt,
spec's 6; indentation elided). -/
def jsonwrt_name : Option Str → Str
  | some n => mstr "\"" ++ n ++ mstr "\": "
  | none => []

/-- Modelled from the spec: trailing-comma suppression of the JSON token
writer — a comma unless this is the last sibling. -/
def jsonwrt_comma (is_last : Bool) : Str := if is_last then [] else mstr ", "

/-- Modelled from the spec: ul_jsonwrt_value_s, a quoted string value. -/
def ul_jsonwrt_value_s (name : Option Str) (data : Str) (is_last : Bool) : Str :=
  jsonwrt_name name ++ mstr "\"" ++ data ++ mstr "\"" ++ jsonwrt_comma is_last

/-- Modelled from the spec: ul_jsonwrt_value_raw, an unquoted value. -/
def ul_jsonwrt_value_raw (name : Option Str) (data : Str) (is_last : Bool) : Str :=
  jsonwrt_name name ++ data ++ jsonwrt_comma is_last

/-- Modelled from the spec: ul_jsonwrt_value_boolean. -/
def ul_jsonwrt_value_boolean (name : Option Str) (status : Bool) (is_last : Bool) : Str :=
  jsonwrt_name name ++ (if status then mstr "true" else mstr "false") ++ jsonwrt_comma is_last

/-- Modelled from the spec: ul_jsonwrt_array_open. -/
def ul_jsonwrt_array_open (name : Option Str) : Str := jsonwrt_name name ++ mstr "["

/-- Modelled from the spec: ul_jsonwrt_array_close. -/
def ul_jsonwrt_array_close (is_last : Bool) : Str := mstr "]" ++ jsonwrt_comma is_last

/-- Modelled from the spec: ul_jsonwrt_object_open. -/
def ul_jsonwrt_object_open (name : Option Str) : Str := jsonwrt_name name ++ mstr "\x7b"

/-- Modelled from the spec: ul_jsonwrt_object_close. -/
def ul_jsonwrt_object_close (is_last : Bool) : Str := mstr "\x7d" ++ jsonwrt_comma is_last

/-- The do-while loop of print_json_data's array case: each chunk is written
with the last-sibling flag driven by whether a further chunk exists; fuel
bounds the loop against a chunking function that makes no progress. -/
def print_json_array_go (cl : Column) (fn : Str → Option Nat) : Nat → Str → Str
  | 0, _ => []
  | fuel + 1, data =>
    match fn data with
    | some nc =>
      (if cl.json_type = .array_string then ul_jsonwrt_value_s none (data.take nc) false
       else ul_jsonwrt_value_raw none (data.take nc) false) ++
      print_json_array_go cl fn fuel (data.drop nc)
    | none =>
      if cl.json_type = .array_string then ul_jsonwrt_value_s none data true
      else ul_jsonwrt_value_raw none data true

/-- Function print_json_data (print.c lines 438-481), returning the bytes
handed to the JSON writer: string, raw number, boolean (false for an empty
value, a leading '0', or a leading 'N'/'n'; true otherwise), or an array
split by the custom chunking function when there is one. -/
def print_json_data (_tb : Table) (cl : Column) (name : Str) (data : Str) (is_last : Bool) :
    Str :=
  match cl.json_type with
  | .str => ul_jsonwrt_value_s (some name) data is_last
  | .number => ul_jsonwrt_value_raw (some name) data is_last
  | .boolean =>
    ul_jsonwrt_value_boolean (some name)
      (if data = [] then false
       else if data.head? = some (Mb.ch '0') then false
       else if data.head? = some (Mb.ch 'N') || data.head? = some (Mb.ch 'n') then false
       else true)
      is_last
  | .array_string | .array_number =>
    ul_jsonwrt_array_open (some name) ++
    (if !scols_column_is_customwrap cl then ul_jsonwrt_value_s none data true
     else
       match cl.wrap_nextchunk with
       | some fn => print_json_array_go cl fn (data.length + 1) data
       | none => ul_jsonwrt_value_s none data true) ++
    ul_jsonwrt_array_close is_last

/-- Modelled from the spec: fputs_nonblank (carefulputc.h, not under src/),
the raw format's non-blank-safe emission; escaping is elided, so it is the
identity on the modelled bytes. -/
def fputs_nonblank (d : Str) : Str := d

/-- Modelled from the spec: fputs_shell_ident (carefulputc.h, not under
src/), the export format's shell-safe identifier emission; escaping is
elided. -/
def fputs_shell_ident (n : Str) : Str := n

/-- Modelled from the spec: fputs_quoted (carefulputc.h, not under src/),
the export format's quoted value. -/
def fputs_quoted (d : Str) : Str := mstr "\"" ++ d ++ mstr "\""

/-- Modelled from the spec: endswith(name, "%") as print_data uses it. -/
def endswith_pct (n : Str) : Bool := n.getLast? = some (Mb.ch '%')

/-- Whether the optional row has children (has_children(ln) in the source,
guarded there so that ln is non-null whenever it matters). -/
def has_children_opt : Option Row → Bool
  | some r => r.hasChildren
  | none => false

/-- The last-column shrink of print_data (print.c lines 558-562): the
effective width drops to the measured width for a naturally short last
column when max-out is off and the column is not right-aligned. -/
def shrink_width (tb : Table) (cl : Column) (is_last : Bool) (len width : Nat) : Nat :=
  if is_last && len < width && !tb.maxout && !cl.isRight then len else width

/-- Custom multi-line stage of print_data (print.c lines 547-556): when the
cell has text, the column has a custom chunking function and it yields a
next boundary, the tail past the boundary becomes pending data and only the
first chunk (with its width and byte count) continues; otherwise the input
passes through. -/
def pd_custom (cl : Column) (st : RState) (data1 : Str) (len1 bytes1 : Nat) :
    RState × Str × Nat × Nat :=
  let cw : Option Nat :=
    if data1 ≠ [] && scols_column_is_customwrap cl then
      match cl.wrap_nextchunk with
      | some fn => fn data1
      | none => none
    else none
  match cw with
  | some nc =>
    (setPend st cl.seqnum (set_pending_data (data1.drop nc) (bytes1 - nc)),
      data1.take nc, mwidth (data1.take nc), nc)
  | none => (st, data1, len1, bytes1)

/-- Truncation stage of print_data (print.c lines 564-568): data over the
effective width of a truncating column is cut by mbs_truncate, whose
sentinel failure is carried as a `none` byte count (the C -1). -/
def pd_trunc (cl : Column) (width : Nat) (data2 : Str) (len2 bytes2 : Nat) :
    Str × Nat × Option Nat :=
  if len2 > width && cl.isTrunc then
    match mbs_truncate data2 width with
    | some r => (r.1, r.2, some r.2)
    | none => (data2, width, none)
  else (data2, len2, some bytes2)

/-- Standard multi-line stage of print_data (print.c lines 570-579): data
over the effective width of a wrapping (non-custom-wrap) column is stored
as pending data in full, the first line's cut is truncated out and the
pending cursor steps past the consumed bytes.  The byte count cannot be the
sentinel here (a failed truncation forces len = width, skipping this
stage), so the C size_t value is read with getD. -/
def pd_wrap (cl : Column) (st1 : RState) (width : Nat) (data3 : Str) (len3 : Nat)
    (bytes3 : Option Nat) : RState × Str × Nat × Option Nat :=
  if len3 > width && cl.isWrap && !scols_column_is_customwrap cl then
    let sta := setPend st1 cl.seqnum (set_pending_data data3 (bytes3.getD 0))
    match mbs_truncate data3 width with
    | some r =>
      let stb :=
        if r.2 > 0 then setPend sta cl.seqnum (step_pending_data (getPend sta cl.seqnum) r.2)
        else sta
      (stb, r.1, r.2, some r.2)
    | none => (sta, data3, width, none)
  else (st1, data3, len3, bytes3)

/-- Sentinel stage of print_data (print.c lines 581-584): a failed
truncation degrades the cell to empty text with zero width and byte
count. -/
def pd_fail (data4 : Str) (len4 : Nat) (bytes4 : Option Nat) : Str × Nat × Nat :=
  match bytes4 with
  | none => ([], 0, 0)
  | some b => (data4, len4, b)

/-- Emission stage of print_data (print.c lines 586-612): nothing for empty
text; right-aligned columns pad (inside the color) then write; otherwise
colored tree cells write their art prefix uncolored and the rest colored,
and plain cells write the text. -/
def pd_emit (tb : Table) (cl : Column) (buf : LBuffer) (color : Option Str)
    (st2 : RState) (width : Nat) (data5 : Str) (len5 bytesFin : Nat) : RState :=
  if data5 ≠ [] then
    if cl.isRight then
      { st2 with out := st2.out ++
          (match color with
           | some c =>
             c ++ (List.replicate (width - len5) (cellpadding_symbol tb)).flatten ++
               data5 ++ ulColorReset
           | none =>
             (List.replicate (width - len5) (cellpadding_symbol tb)).flatten ++ data5) }
    else
      match color with
      | some c =>
        if cl.isTree && buf.art_idx ≠ 0 && buf.art_idx < bytesFin then
          { st2 with out := st2.out ++ data5.take buf.art_idx ++ c ++
              data5.drop buf.art_idx ++ ulColorReset }
        else { st2 with out := st2.out ++ c ++ data5 ++ ulColorReset }
      | none => { st2 with out := st2.out ++ data5 }
  else st2

/-- Fill stage of print_data (print.c lines 614-633), the shared padding
policy: skip under min-out with empty remaining columns; skip for the last
column without max-out; otherwise pad to the effective width, and either
continue on a padded new line (untruncatable overflow) or write the column
separator for a non-last column. -/
def pd_fill (tb : Table) (cl : Column) (ln : Option Row) (is_last : Bool)
    (width len6 : Nat) (st3 : RState) : RState × Int :=
  if tb.minout && is_next_columns_empty tb cl ln then (st3, 0)
  else if !tb.maxout && is_last then (st3, 0)
  else
    let st4 := { st3 with
      out := st3.out ++ (List.replicate (width - len6) (cellpadding_symbol tb)).flatten }
    if len6 > width && !cl.isTrunc then (print_newline_padding tb cl ln st4, 0)
    else if !is_last then ({ st4 with out := st4.out ++ colsep tb }, 0)
    else (st4, 0)

/-- Human-format path of print_data (print.c lines 533-633): encode (the
identity in this model) and measure, then the stages in source order —
custom chunking, last-column shrink, truncation, standard wrapping with
pending-data capture, sentinel degradation, emission, and the fill
policy. -/
def print_data_human (tb : Table) (cl : Column) (ln : Option Row) (ce : Option Cell)
    (buf : LBuffer) (is_last : Bool) (st : RState) : RState × Int :=
  let color := get_cell_color tb cl ln ce
  let s1 := pd_custom cl st buf.data (mwidth buf.data) buf.data.length
  let width := shrink_width tb cl is_last s1.2.2.1 cl.width
  let s2 := pd_trunc cl width s1.2.1 s1.2.2.1 s1.2.2.2
  let s3 := pd_wrap cl s1.1 width s2.1 s2.2.1 s2.2.2
  let s4 := pd_fail s3.2.1 s3.2.2.1 s3.2.2.2
  let st3 := pd_emit tb cl buf color s3.1 width s4.1 s4.2.1 s4.2.2
  let len6 := if s4.1 ≠ [] && cl.isRight then width else s4.2.1
  pd_fill tb cl ln is_last width len6 st3

/-- Function print_data (print.c lines 483-634): format dispatch.  Raw and
export emit through the carefulputc helpers; JSON through print_json_data;
the human format continues in print_data_human.  The last-sibling flag is
cleared when a JSON tree row still has its "children" array to write. -/
def print_data (tb : Table) (cl : Column) (ln : Option Row) (ce : Option Cell)
    (buf : LBuffer) (st : RState) : RState × Int :=
  let data0 := buf.data
  let name := cl.header.data.getD []
  let is_last0 := is_last_column tb cl
  let is_last :=
    if is_last0 && tb.format = .json && tb.is_tree_flag && has_children_opt ln then false
    else is_last0
  match tb.format with
  | .raw =>
    ({ st with out := st.out ++ fputs_nonblank data0 ++
        (if !is_last then colsep tb else []) }, 0)
  | .shellExport =>
    ({ st with out := st.out ++ fputs_shell_ident name ++
        (if endswith_pct name then mstr "PCT" else []) ++ mstr "=" ++ fputs_quoted data0 ++
        (if !is_last then colsep tb else []) }, 0)
  | .json =>
    ({ st with out := st.out ++ print_json_data tb cl name data0 is_last }, 0)
  | .human => print_data_human tb cl ln ce buf is_last st

/-- First pass of print_line (print.c lines 702-713) over the columns:
hidden columns are skipped, each visible cell is built and rendered, the
loop stops on a non-zero code, and the pending flag records whether any
rendered column holds pending data. -/
def print_line_cells (tb : Table) (ln : Row) :
    List Column → RState → Int → Bool → RState × Int × Bool
  | [], st, rc, pending => (st, rc, pending)
  | cl :: rest, st, rc, pending =>
    if rc ≠ 0 then (st, rc, pending)
    else if cl.isHidden then print_line_cells tb ln rest st rc pending
    else
      let buf := __cell_to_buffer tb ln cl
      let r := print_data tb cl (some ln) (scols_line_get_cell ln cl.seqnum) buf st
      let pending1 := if r.2 = 0 && (getPend r.1 cl.seqnum).buf.isSome then true else pending
      print_line_cells tb ln rest r.1 r.2 pending1

/-- Body of one pending-data iteration of print_line (print.c lines
721-731): columns with pending data drain one more cut, the rest print an
aligned empty cell; the pending flag records whether any column still has
data after its drain. -/
def pending_cells (tb : Table) (ln : Row) :
    List Column → RState → Int → Bool → RState × Int × Bool
  | [], st, rc, pending => (st, rc, pending)
  | cl :: rest, st, rc, pending =>
    if rc ≠ 0 then (st, rc, pending)
    else if cl.isHidden then pending_cells tb ln rest st rc pending
    else if (getPend st cl.seqnum).buf.isSome then
      let r := print_pending_data tb cl (some ln) (scols_line_get_cell ln cl.seqnum) st
      let pending1 := if r.2 = 0 && (getPend r.1 cl.seqnum).buf.isSome then true else pending
      pending_cells tb ln rest r.1 r.2 pending1
    else
      pending_cells tb ln rest (print_empty_cell tb cl (some ln) st) rc pending

/-- The while loop over extra lines in print_line (print.c lines 716-732):
each iteration emits a line separator, counts a terminal line and drains
every visible column once.  The C loop has no fuel; here the fuel models it
and is chosen by print_line as one more than the total pending byte count,
which bounds the iteration count whenever every iteration consumes at least
one pending byte — true in every state the renderer reaches, since a column
with pending data and a positive width consumes at least one byte and a
zero-width column stops the loop with -EINVAL. -/
def pending_loop (tb : Table) (ln : Row) : Nat → RState → Int → Bool → RState × Int
  | 0, st, rc, _ => (st, rc)
  | fuel + 1, st, rc, pending =>
    if rc = 0 && pending then
      let st1 := { st with out := st.out ++ linesep tb,
                           termlines_used := st.termlines_used + 1 }
      let r := pending_cells tb ln tb.cols st1 0 false
      pending_loop tb ln fuel r.1 r.2.1 r.2.2
    else (st, rc)

/-- Fuel for the pending loop: one more than the total pending byte count. -/
def line_fuel (st : RState) : Nat := (st.pends.map ColPending.sz).sum + 1

/-- Function print_line (print.c lines 689-735): the regular pass over the
columns, then extra lines while some column has pending data.  The source
function ends in `return 0;`, discarding the error code its loops
accumulated — the model reproduces exactly that. -/
def print_line (tb : Table) (ln : Row) (st : RState) : RState × Int :=
  let r := print_line_cells tb ln tb.cols st 0 false
  let r2 := pending_loop tb ln (line_fuel r.1) r.1 r.2.1 r.2.2
  (r2.1, 0)

/-- Column loop of __scols_print_header (print.c lines 857-877): for every
visible column the buffer gets the group-lane padding (for the tree column
of a grouped tree table), then the header text, and print_data renders it
with no row and the header cell. -/
def header_cells (tb : Table) : List Column → RState → Int → RState × Int
  | [], st, rc => (st, rc)
  | cl :: rest, st, rc =>
    if rc ≠ 0 then (st, rc)
    else if cl.isHidden then header_cells tb rest st rc
    else
      let pad : Str :=
        if cl.isGroups && tb.is_tree_flag && cl.isTree then
          (List.replicate (tb.grpset.length + 1) (mstr " ")).flatten
        else []
      let buf : LBuffer := { data := pad ++ cl.header.data.getD [], art_idx := 0 }
      let r := print_data tb cl none (some cl.header) buf st
      header_cells tb rest r.1 r.2

/-- Function __scols_print_header (print.c lines 839-890): a no-op returning
0 when the header was already printed without repeat, headings are off, the
format is export or JSON, or the table has no lines; otherwise the column
loop, a line separator on success, and the header bookkeeping updates (set
even on failure, as in the source). -/
def __scols_print_header (tb : Table) (st : RState) : RState × Int :=
  if (st.header_printed && !tb.header_repeat) || tb.no_headings ||
     tb.format = .shellExport || tb.format = .json || tb.lines = [] then
    (st, 0)
  else
    let r := header_cells tb tb.cols st 0
    let st1 :=
      if r.2 = 0 then
        { r.1 with out := r.1.out ++ linesep tb, termlines_used := r.1.termlines_used + 1 }
      else r.1
    ({ st1 with header_printed := true,
                header_next := st1.termlines_used + tb.termheight }, r.2)

/-- Macro want_repeat_header (print.c line 51). -/
def want_repeat_header (tb : Table) (st : RState) : Bool :=
  !tb.header_repeat || st.header_next ≤ st.termlines_used

/-- Loop of __scols_print_range (print.c lines 904-925) over the remaining
lines, carrying the current index and the optional end index (the C end
pointer compared by identity).  JSON rows are bracketed in an object;
otherwise every row but the last gets a line separator; the loop breaks at
the end line, and reprints the header (its code discarded, as in the
source) when repetition is due. -/
def print_range_go (tb : Table) :
    List Row → Nat → Option Nat → RState → RState × Int
  | [], _, _, st => (st, 0)
  | ln :: rest, idx, endIdx, st =>
    let last := rest = []
    let st1 :=
      if tb.format = .json then { st with out := st.out ++ ul_jsonwrt_object_open none }
      else st
    let r := print_line tb ln st1
    let st3 :=
      if tb.format = .json then { r.1 with out := r.1.out ++ ul_jsonwrt_object_close last }
      else if !last && !tb.no_linesep then
        { r.1 with out := r.1.out ++ linesep tb, termlines_used := r.1.termlines_used + 1 }
      else r.1
    if r.2 ≠ 0 then (st3, r.2)
    else if endIdx = some idx then (st3, r.2)
    else
      let st4 := if !last && want_repeat_header tb st3 then (__scols_print_header tb st3).1
                 else st3
      print_range_go tb rest (idx + 1) endIdx st4

/-- Function __scols_print_range (print.c lines 893-929): the loop from the
iterator's position; the iterator is modelled as the suffix of the line list
it would traverse, with the end pointer as an index. -/
def __scols_print_range (tb : Table) (endIdx : Option Nat) (st : RState) : RState × Int :=
  print_range_go tb tb.lines 0 endIdx st

/-- Function __scols_print_table (print.c lines 931-937): the whole range. -/
def __scols_print_table (tb : Table) (st : RState) : RState × Int :=
  __scols_print_range tb none st

/-- Cell text of a row at a column index, the empty string for an absent
cell or absent data — exactly what the renderer copies into the buffer. -/
def cell_data (ln : Row) (i : Nat) : Str :=
  ((scols_line_get_cell ln i).bind scols_cell_get_data).getD []

/-- C6: stepping a pending-data cursor of remaining length L over buffer B by
k consumed bytes empties the state (buffer freed, cursor null) when k ≥ L,
and otherwise advances the cursor by exactly k within the same buffer,
leaving L - k remaining, with the owned buffer unchanged (no
reallocation). -/
theorem c6_step_pending (B : Str) (off L k : Nat) :
    (L ≤ k → step_pending_data ⟨some B, off, L⟩ k = ⟨none, 0, 0⟩) ∧
    (k < L → step_pending_data ⟨some B, off, L⟩ k = ⟨some B, off + k, L - k⟩) := by
  constructor
  · intro h
    simp [step_pending_data, set_pending_data, h]
  · intro h
    simp [step_pending_data, Nat.not_le.mpr h]

/-- Witness for C6 at a concrete buffer: both branches evaluated. -/
theorem c6_step_pending_witness :
    step_pending_data ⟨some (mstr "abcde"), 2, 3⟩ 5 = ⟨none, 0, 0⟩ ∧
    step_pending_data ⟨some (mstr "abcde"), 2, 3⟩ 2 = ⟨some (mstr "abcde"), 4, 1⟩ :=
  ⟨(c6_step_pending (mstr "abcde") 2 3 5).1 (by decide),
   (c6_step_pending (mstr "abcde") 2 3 2).2 (by decide)⟩

/-- C10: printing the header is a no-op returning 0 — state untouched and no
bytes emitted — when the header was already printed with repetition off, the
table is in no-headings mode, the format is export or JSON, or the table has
no lines. -/
theorem c10_header_noop (tb : Table) (st : RState)
    (h : (st.header_printed = true ∧ tb.header_repeat = false) ∨ tb.no_headings = true ∨
         tb.format = .shellExport ∨ tb.format = .json ∨ tb.lines = []) :
    __scols_print_header tb st = (st, 0) := by
  unfold __scols_print_header
  rcases h with ⟨h1, h2⟩ | h | h | h | h
  · simp [h1, h2]
  · simp [h]
  · simp [h]
  · simp [h]
  · simp [h]

/-- Witness for C10 on a concrete table with lines, headings off. -/
theorem c10_header_noop_witness :
    __scols_print_header
      { cols := [{ seqnum := 0, width := 3 }], lines := [{ cells := [] }],
        no_headings := true }
      ({} : RState) = (({} : RState), 0) :=
  c10_header_noop _ _ (Or.inr (Or.inl rfl))

/-- Concrete table for C4: groups enabled, default symbols, a lane array of
two chunks with the first chunk's head in the last-member state and the
second chunk all null. -/
def c4_table : Table :=
  { has_groups_flag := true,
    grpset := [some .last_member, none, none, none, none, none] }

/-- Counterexample for C4: on the two-chunk lane array with chunk 0 in the
last-member state and chunk 1 null, the generator emits the last-member
glyph, then a chunk-sized filler run for the null chunk, then the fallback
filler — not the last-member glyph followed by a single filler glyph as the
claim states. -/
theorem c4_counterexample :
    groups_ascii_art_to_buffer c4_table [] =
      grp_m_last_symbol c4_table ++
        (List.replicate SCOLS_GRPSET_CHUNKSIZ (cellpadding_symbol c4_table)).flatten ++
        cellpadding_symbol c4_table ∧
    groups_ascii_art_to_buffer c4_table [] ≠
      grp_m_last_symbol c4_table ++ cellpadding_symbol c4_table := by
  decide

/-- C4 (amended): for every table whose lane array has size 2 × chunk-size
with the chunk-0 head in the last-member state and the chunk-1 head null,
the group-art generator emits the last-member glyph, then a chunk-size
filler run for the null chunk, then one single fallback filler glyph. -/
theorem c4_group_art (tb : Table)
    (h1 : tb.has_groups_flag = true) (h2 : tb.is_dummy_print = false)
    (h3 : tb.grpset.length = 2 * SCOLS_GRPSET_CHUNKSIZ)
    (h4 : tb.grpset.get? 0 = some (some .last_member))
    (h5 : tb.grpset.get? SCOLS_GRPSET_CHUNKSIZ = some none) :
    groups_ascii_art_to_buffer tb [] =
      grp_m_last_symbol tb ++
        (List.replicate SCOLS_GRPSET_CHUNKSIZ (cellpadding_symbol tb)).flatten ++
        cellpadding_symbol tb := by
  rcases hg : tb.grpset with _ | ⟨a, _ | ⟨b, _ | ⟨c, _ | ⟨d, _ | ⟨e, _ | ⟨f, rest⟩⟩⟩⟩⟩⟩ <;>
    rw [hg] at h3 h4 h5 <;> simp [SCOLS_GRPSET_CHUNKSIZ] at h3 h4 h5
  subst h3 h4 h5
  simp [groups_ascii_art_to_buffer, h1, h2, hg, groups_art_go, groups_art_chunk,
    SCOLS_GRPSET_CHUNKSIZ]

/-- Witness for C4 (amended) at the concrete table. -/
theorem c4_group_art_witness :
    groups_ascii_art_to_buffer c4_table [] =
      grp_m_last_symbol c4_table ++
        (List.replicate SCOLS_GRPSET_CHUNKSIZ (cellpadding_symbol c4_table)).flatten ++
        cellpadding_symbol c4_table :=
  c4_group_art c4_table rfl rfl (by decide) (by decide) (by decide)

/-- Counterexample for C5: the data "00" is neither empty, nor the string
"0", nor does it begin with N or n, so the claim demands the value true, but
the code tests only the first byte and writes false. -/
theorem c5_counterexample :
    print_json_data ({} : Table) { json_type := .boolean } (mstr "A") (mstr "00") true =
      ul_jsonwrt_value_boolean (some (mstr "A")) false true ∧
    ul_jsonwrt_value_boolean (some (mstr "A")) false true ≠
      ul_jsonwrt_value_boolean (some (mstr "A")) true true ∧
    mstr "00" ≠ [] ∧ mstr "00" ≠ mstr "0" ∧
    (mstr "00").head? ≠ some (Mb.ch 'N') ∧ (mstr "00").head? ≠ some (Mb.ch 'n') := by
  decide

/-- C5 (amended): for every JSON boolean column the value written is false
exactly when the cell's data is the empty string or begins with the byte
'0', 'N' or 'n'; for every other data string the value written is true. -/
theorem c5_json_boolean (tb : Table) (cl : Column) (name data : Str) (is_last : Bool)
    (h : cl.json_type = .boolean) :
    print_json_data tb cl name data is_last =
      ul_jsonwrt_value_boolean (some name)
        (if data = [] ∨ data.head? = some (Mb.ch '0') ∨ data.head? = some (Mb.ch 'N') ∨
            data.head? = some (Mb.ch 'n')
         then false else true)
        is_last := by
  unfold print_json_data
  rw [h]
  split_ifs <;> simp_all

/-- Witness for C5 (amended) at concrete data: a leading 'N' and a plain
string evaluated. -/
theorem c5_json_boolean_witness :
    print_json_data ({} : Table) { json_type := .boolean } (mstr "A") (mstr "No") true =
      ul_jsonwrt_value_boolean (some (mstr "A"))
        (if mstr "No" = [] ∨ (mstr "No").head? = some (Mb.ch '0') ∨
            (mstr "No").head? = some (Mb.ch 'N') ∨ (mstr "No").head? = some (Mb.ch 'n')
         then false else true)
        true :=
  c5_json_boolean {} { json_type := .boolean } (mstr "A") (mstr "No") true rfl

/-- Number of ancestors of a line: the length of its parent chain. -/
def pathDepth : LnPath → Nat
  | .root => 0
  | .child p _ => pathDepth p + 1

/-- Whether no line along an ancestry chain is a last child. -/
def allNotLast : LnPath → Bool
  | .root => true
  | .child p last => !last && allNotLast p

theorem flatten_replicate_succ (n : Nat) (v : Str) :
    (List.replicate n v).flatten ++ v = (List.replicate (n + 1) v).flatten := by
  induction n with
  | zero => simp
  | succ m ih =>
    rw [List.replicate_succ, List.flatten_cons, List.append_assoc, ih]
    rw [List.replicate_succ (n := m + 1), List.flatten_cons]

/-- Ancestor art of a chain none of whose lines is a last child: one
vertical-continuation glyph per chain link. -/
theorem tree_art_all_vertical (tb : Table) (p : LnPath) (h : allNotLast p = true) :
    tree_ascii_art_to_buffer tb p =
      (List.replicate (pathDepth p) (vertical_symbol tb)).flatten := by
  induction p with
  | root => simp [tree_ascii_art_to_buffer, pathDepth]
  | child q last ih =>
    simp [allNotLast] at h
    rw [tree_ascii_art_to_buffer, pathDepth, ih h.2]
    simp [h.1, flatten_replicate_succ]

/-- Concrete tree column and table for C3. -/
def c3_col : Column := { seqnum := 0, width := 5, isTree := true }

/-- Concrete table for C3 with the single tree column and default symbols. -/
def c3_table : Table := { cols := [c3_col], format := .human }

/-- Concrete row for C3: one ancestor (the root), itself not a last child. -/
def c3_row : Row :=
  { cells := [some { data := some (mstr "x") }], path := .child .root false }

/-- Counterexample for C3: a row with one ancestor, no ancestor a last
child — the decoration prepended to its tree cell is the branch glyph, not
one copy of the vertical-continuation glyph as the claim states. -/
theorem c3_counterexample :
    pathDepth c3_row.path = 1 ∧ allNotLast LnPath.root = true ∧
    (__cell_to_buffer c3_table c3_row c3_col).data.take
        (__cell_to_buffer c3_table c3_row c3_col).art_idx ≠
      (List.replicate 1 (vertical_symbol c3_table)).flatten := by
  decide

/-- C3 (amended): for every row with N ancestors (N ≥ 1), none of which is
a last child, the decoration prepended to the row's tree-column cell is
exactly N - 1 copies of the vertical-continuation glyph followed by the
row's own branch glyph (or corner glyph when the row is a last child),
independent of the row's cell text. -/
theorem c3_tree_art (tb : Table) (cl : Column) (r : Row) (q : LnPath) (lastf : Bool)
    (htree : cl.isTree = true) (hgrp : cl.isGroups = false) (hfmt : tb.format ≠ .json)
    (hp : r.path = .child q lastf) (hflags : allNotLast q = true) :
    __cell_to_buffer tb r cl =
      { data := (List.replicate (pathDepth r.path - 1) (vertical_symbol tb)).flatten ++
          (if lastf then right_symbol tb else branch_symbol tb) ++ cell_data r cl.seqnum,
        art_idx := ((List.replicate (pathDepth r.path - 1) (vertical_symbol tb)).flatten ++
          (if lastf then right_symbol tb else branch_symbol tb)).length } := by
  unfold __cell_to_buffer
  rw [hp]
  simp [htree, hgrp, hfmt, is_last_child, tree_art_all_vertical tb q hflags, pathDepth,
    cell_data]

/-- Witness for C3 (amended): a depth-2 row with no last-child ancestors
renders one vertical glyph and then the branch glyph before its text. -/
theorem c3_tree_art_witness :
    __cell_to_buffer c3_table
        { cells := [some { data := some (mstr "x") }],
          path := .child (.child .root false) false }
        c3_col =
      { data := (List.replicate 1 (vertical_symbol c3_table)).flatten ++
          (if false then right_symbol c3_table else branch_symbol c3_table) ++
          cell_data
            { cells := [some { data := some (mstr "x") }],
              path := .child (.child .root false) false } c3_col.seqnum,
        art_idx := ((List.replicate 1 (vertical_symbol c3_table)).flatten ++
          (if false then right_symbol c3_table else branch_symbol c3_table)).length } :=
  c3_tree_art c3_table c3_col
    { cells := [some { data := some (mstr "x") }],
      path := .child (.child .root false) false }
    (.child .root false) false rfl rfl (by decide) rfl (by decide)

/-- Concrete column for C1: a wrap column whose width is zero. -/
def c1_col : Column := { seqnum := 0, width := 0, isWrap := true }

/-- Concrete row for C1 with pending-provoking data. -/
def c1_row : Row := { cells := [some { data := some (mstr "ab") }] }

/-- Concrete table for C1. -/
def c1_table : Table := { cols := [c1_col], format := .human, lines := [c1_row] }

/-- Initial render state for C1 (one pending slot). -/
def c1_st : RState := { pends := [{}] }

/-- C1 evaluated at the failing input: the per-cell rendering step inside
print_line (the pending-data drain of the zero-width wrap column) returns
the non-zero code -EINVAL, yet print_line throws its accumulated code away
and returns 0, so the enclosing range walker also returns 0 — the error is
not propagated as the claim requires. -/
theorem c1_error_not_propagated :
    (print_pending_data c1_table c1_col (some c1_row) (scols_line_get_cell c1_row 0)
        (print_line_cells c1_table c1_row c1_table.cols c1_st 0 false).1).2 = -EINVAL ∧
    -EINVAL ≠ (0 : Int) ∧
    (print_line c1_table c1_row c1_st).2 = 0 ∧
    (__scols_print_range c1_table none c1_st).2 = 0 := by
  decide

theorem getPend_setPend_self (st : RState) (i : Nat) (p : ColPending)
    (h : i < st.pends.length) : getPend (setPend st i p) i = p := by
  simp [getPend, setPend, List.get?_eq_getElem?, List.getElem?_set_eq_of_lt, h]

theorem getPend_setPend_ne (st : RState) (i j : Nat) (p : ColPending)
    (h : i ≠ j) : getPend (setPend st i p) j = getPend st j := by
  simp [getPend, setPend, List.get?_eq_getElem?, List.getElem?_set_ne, h]

theorem setPend_setPend (st : RState) (i : Nat) (p q : ColPending) :
    setPend (setPend st i p) i q = setPend st i q := by
  simp [setPend, List.set_set]

theorem pd_custom_none (cl : Column) (st : RState) (data1 : Str) (len1 bytes1 : Nat)
    (h : cl.wrap_nextchunk = none) :
    pd_custom cl st data1 len1 bytes1 = (st, data1, len1, bytes1) := by
  unfold pd_custom
  simp [scols_column_is_customwrap, h]

theorem pd_trunc_le (cl : Column) (width : Nat) (data2 : Str) (len2 bytes2 : Nat)
    (h : len2 ≤ width) :
    pd_trunc cl width data2 len2 bytes2 = (data2, len2, some bytes2) := by
  unfold pd_trunc
  simp [Nat.not_lt.mpr h]

theorem pd_trunc_off (cl : Column) (width : Nat) (data2 : Str) (len2 bytes2 : Nat)
    (h : cl.isTrunc = false) :
    pd_trunc cl width data2 len2 bytes2 = (data2, len2, some bytes2) := by
  unfold pd_trunc
  simp [h]

theorem pd_trunc_over (cl : Column) (width : Nat) (data2 : Str) (len2 bytes2 : Nat)
    (h1 : width < len2) (h2 : cl.isTrunc = true) (h3 : validStr data2 = true) :
    pd_trunc cl width data2 len2 bytes2 =
      (data2.take width, (data2.take width).length, some (data2.take width).length) := by
  unfold pd_trunc
  simp [h1, h2, mbs_truncate, h3]

theorem pd_trunc_bad (cl : Column) (width : Nat) (data2 : Str) (len2 bytes2 : Nat)
    (h1 : width < len2) (h2 : cl.isTrunc = true) (h3 : validStr data2 = false) :
    pd_trunc cl width data2 len2 bytes2 = (data2, width, none) := by
  unfold pd_trunc
  simp [h1, h2, mbs_truncate, h3]

theorem pd_wrap_le (cl : Column) (st1 : RState) (width : Nat) (data3 : Str) (len3 : Nat)
    (bytes3 : Option Nat) (h : len3 ≤ width) :
    pd_wrap cl st1 width data3 len3 bytes3 = (st1, data3, len3, bytes3) := by
  unfold pd_wrap
  simp [Nat.not_lt.mpr h]

theorem pd_wrap_off (cl : Column) (st1 : RState) (width : Nat) (data3 : Str) (len3 : Nat)
    (bytes3 : Option Nat) (h : cl.isWrap = false) :
    pd_wrap cl st1 width data3 len3 bytes3 = (st1, data3, len3, bytes3) := by
  unfold pd_wrap
  simp [h]

theorem pd_wrap_over (cl : Column) (st1 : RState) (width : Nat) (data3 : Str)
    (h1 : width < data3.length) (h2 : cl.isWrap = true) (h3 : cl.wrap_nextchunk = none)
    (h4 : validStr data3 = true) (hw : 0 < width) (hlen : cl.seqnum < st1.pends.length) :
    pd_wrap cl st1 width data3 data3.length (some data3.length) =
      (setPend st1 cl.seqnum
         { buf := some data3, off := width, sz := data3.length - width },
       data3.take width, (data3.take width).length, some (data3.take width).length) := by
  have hne : data3 ≠ [] := by
    intro h
    rw [h] at h1
    simp at h1
  have htk : (data3.take width).length = width := by
    simp [List.length_take]
    omega
  have hlt : ¬ (data3.length ≤ width) := by omega
  unfold pd_wrap
  simp only [scols_column_is_customwrap, h3, Option.isSome_none, Bool.and_false,
    Bool.not_false, Bool.and_true, mbs_truncate, h4, set_pending_data,
    step_pending_data, getPend_setPend_self _ _ _ hlen, setPend_setPend]
  simp [h1, h2, hne, htk, hw, hlt]

theorem pd_fail_none (data4 : Str) (len4 : Nat) :
    pd_fail data4 len4 none = ([], 0, 0) := rfl

theorem pd_fail_some (data4 : Str) (len4 b : Nat) :
    pd_fail data4 len4 (some b) = (data4, len4, b) := rfl

theorem pd_emit_nil (tb : Table) (cl : Column) (buf : LBuffer) (color : Option Str)
    (st2 : RState) (width len5 bytesFin : Nat) :
    pd_emit tb cl buf color st2 width [] len5 bytesFin = st2 := by
  unfold pd_emit
  simp

theorem pd_emit_plain (tb : Table) (cl : Column) (buf : LBuffer) (st2 : RState)
    (width : Nat) (data5 : Str) (len5 bytesFin : Nat) (h : cl.isRight = false) :
    pd_emit tb cl buf none st2 width data5 len5 bytesFin =
      { st2 with out := st2.out ++ data5 } := by
  unfold pd_emit
  by_cases hd : data5 = []
  · simp [hd]
  · simp [hd, h]

theorem pd_emit_pends (tb : Table) (cl : Column) (buf : LBuffer) (color : Option Str)
    (st2 : RState) (width : Nat) (data5 : Str) (len5 bytesFin : Nat) :
    (pd_emit tb cl buf color st2 width data5 len5 bytesFin).pends = st2.pends ∧
    (pd_emit tb cl buf color st2 width data5 len5 bytesFin).termlines_used =
      st2.termlines_used ∧
    (pd_emit tb cl buf color st2 width data5 len5 bytesFin).header_printed =
      st2.header_printed ∧
    (pd_emit tb cl buf color st2 width data5 len5 bytesFin).header_next =
      st2.header_next := by
  unfold pd_emit
  rcases color with _ | c <;> split_ifs <;> simp

theorem print_empty_cell_pends (tb : Table) (cl : Column) (ln : Option Row) (st : RState) :
    (print_empty_cell tb cl ln st).pends = st.pends ∧
    (print_empty_cell tb cl ln st).termlines_used = st.termlines_used ∧
    (print_empty_cell tb cl ln st).header_printed = st.header_printed ∧
    (print_empty_cell tb cl ln st).header_next = st.header_next := by
  unfold print_empty_cell
  rcases ln with _ | r <;> split_ifs <;> simp

theorem print_empty_cells_pends (tb : Table) (ln : Option Row) (cols : List Column)
    (st : RState) :
    (print_empty_cells tb ln cols st).pends = st.pends ∧
    (print_empty_cells tb ln cols st).termlines_used = st.termlines_used ∧
    (print_empty_cells tb ln cols st).header_printed = st.header_printed ∧
    (print_empty_cells tb ln cols st).header_next = st.header_next := by
  induction cols generalizing st with
  | nil => simp [print_empty_cells]
  | cons c rest ih =>
    have h1 := print_empty_cell_pends tb c ln st
    have h2 := ih (print_empty_cell tb c ln st)
    rw [print_empty_cells]
    constructor
    · rw [h2.1, h1.1]
    constructor
    · rw [h2.2.1, h1.2.1]
    constructor
    · rw [h2.2.2.1, h1.2.2.1]
    · rw [h2.2.2.2, h1.2.2.2]

theorem pd_fill_no_overflow (tb : Table) (cl : Column) (ln : Option Row) (is_last : Bool)
    (width len6 : Nat) (st3 : RState) (h : len6 ≤ width) :
    pd_fill tb cl ln is_last width len6 st3 =
      (if tb.minout && is_next_columns_empty tb cl ln then st3
       else if !tb.maxout && is_last then st3
       else if !is_last then
         { st3 with out := st3.out ++
             (List.replicate (width - len6) (cellpadding_symbol tb)).flatten ++ colsep tb }
       else
         { st3 with out := st3.out ++
             (List.replicate (width - len6) (cellpadding_symbol tb)).flatten },
       0) := by
  unfold pd_fill
  split_ifs with hA hB hC hD hE <;> simp_all <;> omega

theorem shrink_width_not_lt (tb : Table) (cl : Column) (is_last : Bool) (len width : Nat)
    (h : ¬ len < width) : shrink_width tb cl is_last len width = width := by
  unfold shrink_width
  simp [h]

theorem pd_fill_last_skip (tb : Table) (cl : Column) (ln : Option Row) (is_last : Bool)
    (width len6 : Nat) (st3 : RState) (h : (!tb.maxout && is_last) = true) :
    pd_fill tb cl ln is_last width len6 st3 = (st3, 0) := by
  unfold pd_fill
  split_ifs with hA
  · rfl
  · rfl

theorem print_data_of_human (tb : Table) (cl : Column) (ln : Option Row) (ce : Option Cell)
    (buf : LBuffer) (st : RState) (h1 : tb.format = .human) :
    print_data tb cl ln ce buf st =
      print_data_human tb cl ln ce buf (is_last_column tb cl) st := by
  unfold print_data
  rw [h1]
  simp

theorem print_data_bad_as_empty (tb : Table) (cl : Column) (ln : Option Row)
    (ce : Option Cell) (buf : LBuffer) (st : RState)
    (h1 : tb.format = .human) (h2 : cl.wrap_nextchunk = none)
    (h3 : validStr buf.data = false) (h4 : cl.width < mwidth buf.data)
    (h5 : cl.isTrunc = true) :
    print_data tb cl ln ce buf st =
      print_data tb cl ln ce { data := [], art_idx := buf.art_idx } st := by
  rw [print_data_of_human tb cl ln ce buf st h1,
      print_data_of_human tb cl ln ce { data := [], art_idx := buf.art_idx } st h1]
  unfold print_data_human
  simp only [pd_custom_none _ _ _ _ _ h2]
  rw [shrink_width_not_lt tb cl _ (mwidth buf.data) cl.width (Nat.not_lt.mpr (le_of_lt h4))]
  rw [pd_trunc_bad cl cl.width buf.data (mwidth buf.data) buf.data.length h4 h5 h3]
  rw [pd_wrap_le cl st cl.width buf.data cl.width none (le_refl _)]
  rw [pd_fail_none]
  rw [pd_emit_nil]
  simp only [mwidth, List.length_nil]
  simp only [pd_trunc_le cl _ [] 0 0 (Nat.zero_le _),
    pd_wrap_le cl st _ [] 0 (some 0) (Nat.zero_le _), pd_fail_some, pd_emit_nil]
  simp only [ne_eq, not_true_eq_false, decide_False, Bool.false_and, Bool.false_eq_true,
    if_false]
  by_cases hml : (!tb.maxout && is_last_column tb cl) = true
  · rw [pd_fill_last_skip _ _ _ _ _ _ _ hml, pd_fill_last_skip _ _ _ _ _ _ _ hml]
  · have hsw : shrink_width tb cl (is_last_column tb cl) 0 cl.width = cl.width := by
      cases hmx : tb.maxout with
      | true => simp [shrink_width, hmx]
      | false =>
        have hl : is_last_column tb cl = false := by
          cases hil : is_last_column tb cl
          · rfl
          · exact absurd (by simp [hmx, hil]) hml
        simp [shrink_width, hl]
    rw [hsw]

theorem pd_fill_rc (tb : Table) (cl : Column) (ln : Option Row) (is_last : Bool)
    (width len6 : Nat) (st3 : RState) :
    (pd_fill tb cl ln is_last width len6 st3).2 = 0 := by
  unfold pd_fill
  split_ifs <;> rfl

theorem print_data_rc0 (tb : Table) (cl : Column) (ln : Option Row) (ce : Option Cell)
    (buf : LBuffer) (st : RState) :
    (print_data tb cl ln ce buf st).2 = 0 := by
  unfold print_data print_data_human
  cases tb.format <;> simp [pd_fill_rc]

theorem pending_bad_errors (tb : Table) (cl : Column) (ln : Option Row) (ce : Option Cell)
    (st : RState) (b : Str) (off sz : Nat)
    (hp1 : getPend st cl.seqnum = { buf := some b, off := off, sz := sz })
    (hp2 : validStr (b.drop off) = false) (hp3 : 0 < cl.width)
    (hp4 : cl.wrap_nextchunk = none) :
    print_pending_data tb cl ln ce st = (st, -EILSEQ) := by
  unfold print_pending_data
  rw [hp1]
  simp [Nat.pos_iff_ne_zero.mp hp3, hp4, mbs_truncate, hp2]

/-- Concrete pending state for C9: a column whose pending tail starts with a
malformed byte. -/
def c9_col : Column := { seqnum := 0, width := 2, isWrap := true }

/-- Concrete table for C9. -/
def c9_table : Table := { cols := [c9_col], format := .human }

/-- Concrete render state for C9 with malformed pending data. -/
def c9_st : RState :=
  { pends := [{ buf := some [Mb.bad, Mb.ch 'a'], off := 0, sz := 2 }] }

/-- Counterexample for C9: on the pending-data continuation path a malformed
sequence is not degraded to an empty cell — print_pending_data returns the
non-zero code -EILSEQ and emits nothing, contradicting the claim that both
paths render the cell as empty and continue without error. -/
theorem c9_counterexample :
    print_pending_data c9_table c9_col none none c9_st = (c9_st, -EILSEQ) ∧
    -EILSEQ ≠ (0 : Int) := by
  decide

/-- C9 (amended): on the first-line render path a malformed multi-byte
sequence hit while truncating degrades the cell to an empty rendered cell —
print_data behaves exactly as it does on an empty cell text and returns 0 —
while on the pending-data continuation path print_pending_data instead
returns the non-zero code -EILSEQ (the -errno of the failed truncation). -/
theorem c9_graceful (tb : Table) (cl : Column) (ln : Option Row) (ce : Option Cell)
    (buf : LBuffer) (st : RState)
    (h1 : tb.format = .human) (h2 : cl.wrap_nextchunk = none)
    (h3 : validStr buf.data = false) (h4 : cl.width < mwidth buf.data)
    (h5 : cl.isTrunc = true)
    (tbp : Table) (clp : Column) (lnp : Option Row) (cep : Option Cell) (stp : RState)
    (b : Str) (off sz : Nat)
    (hp1 : getPend stp clp.seqnum = { buf := some b, off := off, sz := sz })
    (hp2 : validStr (b.drop off) = false) (hp3 : 0 < clp.width)
    (hp4 : clp.wrap_nextchunk = none) :
    (print_data tb cl ln ce buf st =
       print_data tb cl ln ce { data := [], art_idx := buf.art_idx } st ∧
     (print_data tb cl ln ce buf st).2 = 0) ∧
    print_pending_data tbp clp lnp cep stp = (stp, -EILSEQ) :=
  ⟨⟨print_data_bad_as_empty tb cl ln ce buf st h1 h2 h3 h4 h5,
    print_data_rc0 tb cl ln ce buf st⟩,
   pending_bad_errors tbp clp lnp cep stp b off sz hp1 hp2 hp3 hp4⟩

/-- Witness for C9 (amended) at concrete malformed data on both paths. -/
theorem c9_graceful_witness :
    (print_data c9_table { seqnum := 0, width := 1, isTrunc := true } none none
        { data := [Mb.bad, Mb.ch 'a'], art_idx := 0 } ({ pends := [{}] } : RState) =
      print_data c9_table { seqnum := 0, width := 1, isTrunc := true } none none
        { data := [], art_idx := 0 } ({ pends := [{}] } : RState) ∧
     (print_data c9_table { seqnum := 0, width := 1, isTrunc := true } none none
        { data := [Mb.bad, Mb.ch 'a'], art_idx := 0 } ({ pends := [{}] } : RState)).2 = 0) ∧
    print_pending_data c9_table c9_col none none c9_st = (c9_st, -EILSEQ) :=
  c9_graceful c9_table { seqnum := 0, width := 1, isTrunc := true } none none
    { data := [Mb.bad, Mb.ch 'a'], art_idx := 0 } { pends := [{}] } rfl rfl (by decide)
    (by decide) rfl
    c9_table c9_col none none c9_st [Mb.bad, Mb.ch 'a'] 0 2 (by decide) (by decide)
    (by decide) rfl

theorem get_cell_color_off (tb : Table) (cl : Column) (ln : Option Row) (ce : Option Cell)
    (h : tb.colors_wanted = false) : get_cell_color tb cl ln ce = none := by
  unfold get_cell_color
  simp [h]

/-- C7: in human format, for a cell in the last visible column with max-out
off, no right alignment and a measured width strictly below the column
width, the effective width shrinks to the measured width — the shrink
precedes the fill decision, so the cell is emitted as its bare text with no
trailing padding and no separator. -/
theorem c7_last_column_shrink (tb : Table) (cl : Column) (ln : Option Row) (ce : Option Cell)
    (buf : LBuffer) (st : RState)
    (h1 : tb.format = .human) (h2 : is_last_column tb cl = true)
    (h3 : tb.maxout = false) (h4 : cl.isRight = false)
    (h5 : mwidth buf.data < cl.width)
    (h6 : cl.wrap_nextchunk = none) (h7 : tb.colors_wanted = false) :
    shrink_width tb cl (is_last_column tb cl) (mwidth buf.data) cl.width =
      mwidth buf.data ∧
    print_data tb cl ln ce buf st = ({ st with out := st.out ++ buf.data }, 0) := by
  have hsw : shrink_width tb cl (is_last_column tb cl) (mwidth buf.data) cl.width =
      mwidth buf.data := by
    unfold shrink_width
    simp [h2, h3, h4, h5]
  refine ⟨hsw, ?_⟩
  rw [print_data_of_human tb cl ln ce buf st h1]
  unfold print_data_human
  simp only [pd_custom_none _ _ _ _ _ h6, hsw]
  simp only [pd_trunc_le cl _ buf.data _ _ (le_refl _),
    pd_wrap_le cl st _ buf.data _ _ (le_refl _), pd_fail_some,
    get_cell_color_off tb cl ln ce h7, pd_emit_plain _ _ _ _ _ _ _ _ h4]
  rw [pd_fill_last_skip]
  simp [h2, h3]

/-- Witness for C7 at a concrete short last-column cell. -/
theorem c7_last_column_shrink_witness :
    shrink_width { cols := [{ seqnum := 0, width := 9 }], format := .human }
        { seqnum := 0, width := 9 }
        (is_last_column { cols := [{ seqnum := 0, width := 9 }], format := .human }
          { seqnum := 0, width := 9 })
        (mwidth (mstr "ab")) 9 = mwidth (mstr "ab") ∧
    print_data { cols := [{ seqnum := 0, width := 9 }], format := .human }
        { seqnum := 0, width := 9 } none none { data := mstr "ab", art_idx := 0 }
        ({ pends := [{}] } : RState) =
      ({ ({ pends := [{}] } : RState) with out := [] ++ mstr "ab" }, 0) :=
  c7_last_column_shrink { cols := [{ seqnum := 0, width := 9 }], format := .human }
    { seqnum := 0, width := 9 } none none { data := mstr "ab", art_idx := 0 }
    { pends := [{}] } rfl (by decide) rfl rfl (by decide) rfl rfl

/-- The claim's reading of "every remaining visible column on the row is
empty": the data of every visible column after the current one is absent or
empty. -/
def remaining_data_empty (tb : Table) (cl : Column) (r : Row) : Bool :=
  ((tb.cols.drop (cl.seqnum + 1)).filter (fun c => !c.isHidden)).all
    (fun c => (cell_data r c.seqnum).isEmpty)

/-- The code's actual notion: every remaining visible column is a non-tree
column with absent or empty data (a tree column always counts as
non-empty). -/
def remaining_empty_nontree (tb : Table) (cl : Column) (r : Row) : Bool :=
  ((tb.cols.drop (cl.seqnum + 1)).filter (fun c => !c.isHidden)).all
    (fun c => !c.isTree && (cell_data r c.seqnum).isEmpty)

theorem next_columns_empty_go_eq (r : Row) (l : List Column) :
    next_columns_empty_go r l =
      (l.filter (fun c => !c.isHidden)).all
        (fun c => !c.isTree && (cell_data r c.seqnum).isEmpty) := by
  induction l with
  | nil => rfl
  | cons c rest ih =>
    rw [next_columns_empty_go]
    by_cases hh : c.isHidden
    · simp [hh, ih]
    · by_cases ht : c.isTree
      · simp [hh, ht]
      · rcases hd : (scols_line_get_cell r c.seqnum).bind scols_cell_get_data with _ | d
        · simp [hh, ht, hd, ih, cell_data, List.filter_cons]
        · by_cases hne : d = []
          · simp [hh, ht, hd, hne, ih, cell_data, List.filter_cons]
          · simp [hh, ht, hd, hne, cell_data, List.filter_cons]

theorem is_next_columns_empty_some (tb : Table) (cl : Column) (r : Row) :
    is_next_columns_empty tb cl (some r) = remaining_empty_nontree tb cl r := by
  unfold is_next_columns_empty remaining_empty_nontree
  by_cases hl : is_last_column tb cl
  · have hnil : (tb.cols.drop (cl.seqnum + 1)).filter (fun c => !c.isHidden) = [] := by
      rw [List.filter_eq_nil_iff]
      intro a ha
      have := List.all_eq_true.mp hl a ha
      simp [this]
    simp [hl, hnil]
  · simp [hl, next_columns_empty_go_eq]

theorem shrink_width_of_no_skip (tb : Table) (cl : Column) (len width : Nat)
    (hml : ¬ (!tb.maxout && is_last_column tb cl) = true) :
    shrink_width tb cl (is_last_column tb cl) len width = width := by
  unfold shrink_width
  cases hmx : tb.maxout with
  | true => simp [hmx]
  | false =>
    have hl : is_last_column tb cl = false := by
      cases hil : is_last_column tb cl
      · rfl
      · exact absurd (by simp [hmx, hil]) hml
    simp [hl]

theorem shrink_width_le (tb : Table) (cl : Column) (il : Bool) (len width : Nat)
    (h : len ≤ width) : len ≤ shrink_width tb cl il len width := by
  unfold shrink_width
  split_ifs
  · exact le_refl _
  · exact h

theorem c8_data_fill (tb : Table) (cl : Column) (r : Row) (ce : Option Cell)
    (buf : LBuffer) (st : RState)
    (h1 : tb.format = .human) (h2 : cl.isRight = false)
    (h3 : tb.colors_wanted = false) (h4 : cl.wrap_nextchunk = none)
    (h5 : mwidth buf.data ≤ cl.width) :
    print_data tb cl (some r) ce buf st =
      ({ st with out := st.out ++ buf.data ++
          (if tb.minout && remaining_empty_nontree tb cl r then []
           else if !tb.maxout && is_last_column tb cl then []
           else
             (List.replicate (cl.width - mwidth buf.data) (cellpadding_symbol tb)).flatten ++
               (if is_last_column tb cl then [] else colsep tb)) }, 0) := by
  rw [print_data_of_human tb cl (some r) ce buf st h1]
  unfold print_data_human
  simp only [pd_custom_none _ _ _ _ _ h4]
  simp only [pd_trunc_le cl _ buf.data _ _ (shrink_width_le tb cl _ _ _ h5),
    pd_wrap_le cl st _ buf.data _ _ (shrink_width_le tb cl _ _ _ h5), pd_fail_some,
    get_cell_color_off tb cl (some r) ce h3, pd_emit_plain _ _ _ _ _ _ _ _ h2]
  by_cases hml : (!tb.maxout && is_last_column tb cl) = true
  · rw [pd_fill_last_skip _ _ _ _ _ _ _ hml]
    have hil : is_last_column tb cl = true := by
      cases hil : is_last_column tb cl
      · rw [hil] at hml
        simp at hml
      · rfl
    have hmx : tb.maxout = false := by
      cases hmx : tb.maxout
      · rfl
      · rw [hmx] at hml
        simp at hml
    simp [hil, hmx]
  · have hml2 : (!tb.maxout && is_last_column tb cl) = false := by
      simpa using hml
    rw [shrink_width_of_no_skip tb cl _ _ hml]
    rw [pd_fill_no_overflow _ _ _ _ _ _ _ (by simp [h2, h5])]
    simp only [is_next_columns_empty_some, h2, Bool.and_false, Bool.false_eq_true,
      if_false, hml2]
    have hil : is_last_column tb cl = false ∨ tb.maxout = true := by
      cases hmx : tb.maxout
      · cases hil : is_last_column tb cl
        · exact Or.inl rfl
        · exact absurd (by simp [hmx, hil]) hml
      · exact Or.inr rfl
    split_ifs <;> simp_all

theorem validStr_drop (s : Str) (n : Nat) (h : validStr s = true) :
    validStr (s.drop n) = true := by
  simp only [validStr, Bool.not_eq_true', List.any_eq_false] at h ⊢
  intro x hx
  exact h x (List.drop_subset n s hx)

theorem c8_pending_fill (tb : Table) (cl : Column) (r : Row) (ce : Option Cell)
    (st : RState) (b : Str) (off : Nat)
    (h3 : tb.colors_wanted = false) (h4 : cl.wrap_nextchunk = none)
    (hp1 : getPend st cl.seqnum = { buf := some b, off := off, sz := b.length - off })
    (hv : validStr b = true) (hw : 0 < cl.width) (hoff : off < b.length) :
    print_pending_data tb cl (some r) ce st =
      ({ setPend st cl.seqnum
           (step_pending_data { buf := some b, off := off, sz := b.length - off }
             ((b.drop off).take cl.width).length) with
         out := st.out ++ (b.drop off).take cl.width ++
           (if tb.minout && remaining_empty_nontree tb cl r then []
            else if !tb.maxout && is_last_column tb cl then []
            else
              (List.replicate (cl.width - ((b.drop off).take cl.width).length)
                  (cellpadding_symbol tb)).flatten ++
                (if is_last_column tb cl then [] else colsep tb)) }, 0) := by
  have hbytes : ((b.drop off).take cl.width).length ≠ 0 := by
    simp [List.length_take, List.length_drop]
    omega
  unfold print_pending_data
  rw [hp1]
  simp only [Nat.pos_iff_ne_zero.mp hw, if_false, scols_column_is_customwrap, h4,
    Option.isSome_none, Bool.and_false, Bool.false_eq_true, if_neg,
    mbs_truncate, validStr_drop b off hv, if_true, Option.map_some,
    get_cell_color_off tb cl (some r) ce h3, emit_colored, hbytes,
    is_next_columns_empty_some]
  split_ifs <;> simp_all [setPend]

theorem c8_empty_fill (tb : Table) (cl : Column) (r : Row) (st : RState)
    (ht : cl.isTree = false) :
    print_empty_cell tb cl (some r) st =
      { st with out := st.out ++
          (if tb.minout && remaining_empty_nontree tb cl r then []
           else if !tb.maxout && is_last_column tb cl then []
           else (List.replicate cl.width (cellpadding_symbol tb)).flatten ++
             (if is_last_column tb cl then [] else colsep tb)) } := by
  unfold print_empty_cell
  simp only [ht, Bool.false_eq_true, if_false, is_next_columns_empty_some]
  split_ifs <;> simp_all

/-- Concrete columns, table and row for the C8 counterexample. -/
def c8_col0 : Column := { seqnum := 0, width := 3 }

/-- Concrete remaining tree column for C8 with no data. -/
def c8_col1 : Column := { seqnum := 1, width := 2, isTree := true }

/-- Concrete min-out table for C8. -/
def c8_table : Table :=
  { cols := [c8_col0, c8_col1], format := .human, minout := true }

/-- Concrete row for C8: data in the first column, nothing in the tree
column. -/
def c8_row : Row := { cells := [some { data := some (mstr "x") }, none] }

/-- Counterexample for C8: min-out is active and every remaining visible
column's data is empty, yet fill is emitted after the cell's text, because
the remaining column is a tree column and the code treats tree columns as
never empty. -/
theorem c8_counterexample :
    c8_table.minout = true ∧
    remaining_data_empty c8_table c8_col0 c8_row = true ∧
    (print_data c8_table c8_col0 (some c8_row) (scols_line_get_cell c8_row 0)
        { data := mstr "x", art_idx := 0 } ({ pends := [{}, {}] } : RState)).1.out =
      mstr "x" ++ (List.replicate 2 (cellpadding_symbol c8_table)).flatten ++
        colsep c8_table ∧
    (print_data c8_table c8_col0 (some c8_row) (scols_line_get_cell c8_row 0)
        { data := mstr "x", art_idx := 0 } ({ pends := [{}, {}] } : RState)).1.out ≠
      mstr "x" := by
  decide

/-- C8 (amended): the uniform fill policy of the three human render paths —
cell data (print_data, under no right alignment, no colors, no custom wrap
and no overflow), pending-data continuation (print_pending_data) and empty
cells (print_empty_cell, non-tree) — is: no fill and no separator when
min-out is active and every remaining visible column is a non-tree column
with empty data; no fill for the last visible column when max-out is off;
otherwise cell-padding glyphs out to the column width followed by the
separator for a non-last column. -/
theorem c8_fill_policy (tb : Table) (cl : Column) (r : Row) (ce : Option Cell)
    (buf : LBuffer) (st : RState)
    (h1 : tb.format = .human) (h2 : cl.isRight = false)
    (h3 : tb.colors_wanted = false) (h4 : cl.wrap_nextchunk = none)
    (h5 : mwidth buf.data ≤ cl.width)
    (tbp : Table) (clp : Column) (rp : Row) (cep : Option Cell) (stp : RState)
    (b : Str) (off : Nat)
    (hp3 : tbp.colors_wanted = false) (hp4 : clp.wrap_nextchunk = none)
    (hp1 : getPend stp clp.seqnum = { buf := some b, off := off, sz := b.length - off })
    (hpv : validStr b = true) (hpw : 0 < clp.width) (hpo : off < b.length)
    (tbe : Table) (cle : Column) (re : Row) (ste : RState) (hte : cle.isTree = false) :
    print_data tb cl (some r) ce buf st =
      ({ st with out := st.out ++ buf.data ++
          (if tb.minout && remaining_empty_nontree tb cl r then []
           else if !tb.maxout && is_last_column tb cl then []
           else
             (List.replicate (cl.width - mwidth buf.data) (cellpadding_symbol tb)).flatten ++
               (if is_last_column tb cl then [] else colsep tb)) }, 0) ∧
    print_pending_data tbp clp (some rp) cep stp =
      ({ setPend stp clp.seqnum
           (step_pending_data { buf := some b, off := off, sz := b.length - off }
             ((b.drop off).take clp.width).length) with
         out := stp.out ++ (b.drop off).take clp.width ++
           (if tbp.minout && remaining_empty_nontree tbp clp rp then []
            else if !tbp.maxout && is_last_column tbp clp then []
            else
              (List.replicate (clp.width - ((b.drop off).take clp.width).length)
                  (cellpadding_symbol tbp)).flatten ++
                (if is_last_column tbp clp then [] else colsep tbp)) }, 0) ∧
    print_empty_cell tbe cle (some re) ste =
      { ste with out := ste.out ++
          (if tbe.minout && remaining_empty_nontree tbe cle re then []
           else if !tbe.maxout && is_last_column tbe cle then []
           else (List.replicate cle.width (cellpadding_symbol tbe)).flatten ++
             (if is_last_column tbe cle then [] else colsep tbe)) } :=
  ⟨c8_data_fill tb cl r ce buf st h1 h2 h3 h4 h5,
   c8_pending_fill tbp clp rp cep stp b off hp3 hp4 hp1 hpv hpw hpo,
   c8_empty_fill tbe cle re ste hte⟩

/-- Concrete single-column table for the C8 witness. -/
def c8w_col : Column := { seqnum := 0, width := 3 }

/-- Concrete table for the C8 witness. -/
def c8w_tb : Table := { cols := [c8w_col], format := .human }

/-- Concrete row for the C8 witness. -/
def c8w_row : Row := { cells := [some { data := some (mstr "x") }] }

/-- Concrete state with a pending tail for the C8 witness. -/
def c8w_stp : RState := { pends := [{ buf := some (mstr "abcd"), off := 1, sz := 3 }] }

/-- Witness for C8 (amended) at concrete tables for all three paths. -/
theorem c8_fill_policy_witness :
    print_data c8w_tb c8w_col (some c8w_row) none { data := mstr "x", art_idx := 0 }
        ({ pends := [{}] } : RState) =
      ({ ({ pends := [{}] } : RState) with out := [] ++ mstr "x" ++
          (if c8w_tb.minout && remaining_empty_nontree c8w_tb c8w_col c8w_row then []
           else if !c8w_tb.maxout && is_last_column c8w_tb c8w_col then []
           else
             (List.replicate (c8w_col.width - mwidth (mstr "x"))
                 (cellpadding_symbol c8w_tb)).flatten ++
               (if is_last_column c8w_tb c8w_col then [] else colsep c8w_tb)) }, 0) ∧
    print_pending_data c8w_tb c8w_col (some c8w_row) none c8w_stp =
      ({ setPend c8w_stp c8w_col.seqnum
           (step_pending_data
             { buf := some (mstr "abcd"), off := 1, sz := (mstr "abcd").length - 1 }
             (((mstr "abcd").drop 1).take c8w_col.width).length) with
         out := c8w_stp.out ++ ((mstr "abcd").drop 1).take c8w_col.width ++
           (if c8w_tb.minout && remaining_empty_nontree c8w_tb c8w_col c8w_row then []
            else if !c8w_tb.maxout && is_last_column c8w_tb c8w_col then []
            else
              (List.replicate (c8w_col.width - (((mstr "abcd").drop 1).take c8w_col.width).length)
                  (cellpadding_symbol c8w_tb)).flatten ++
                (if is_last_column c8w_tb c8w_col then [] else colsep c8w_tb)) }, 0) ∧
    print_empty_cell c8w_tb c8w_col (some c8w_row) ({} : RState) =
      { ({} : RState) with out := [] ++
          (if c8w_tb.minout && remaining_empty_nontree c8w_tb c8w_col c8w_row then []
           else if !c8w_tb.maxout && is_last_column c8w_tb c8w_col then []
           else (List.replicate c8w_col.width (cellpadding_symbol c8w_tb)).flatten ++
             (if is_last_column c8w_tb c8w_col then [] else colsep c8w_tb)) } :=
  c8_fill_policy c8w_tb c8w_col c8w_row none { data := mstr "x", art_idx := 0 }
    { pends := [{}] } rfl rfl rfl rfl (by decide)
    c8w_tb c8w_col c8w_row none c8w_stp (mstr "abcd") 1 rfl rfl (by decide) (by decide)
    (by decide) (by decide)
    c8w_tb c8w_col c8w_row {} rfl

/-- Ceiling division, as the claim's ceil(displayWidth / columnWidth). -/
def ceilDiv (a b : Nat) : Nat := (a + b - 1) / b

theorem ceilDiv_add_right (x b : Nat) (hb : 0 < b) :
    ceilDiv (x + b) b = ceilDiv x b + 1 := by
  have h2 : x + b + b - 1 = x + b - 1 + b := by omega
  rw [ceilDiv, ceilDiv, h2, Nat.add_div_right _ hb]

theorem ceilDiv_sub_self (a b : Nat) (hb : 0 < b) (h : b < a) :
    ceilDiv (a - b) b = ceilDiv a b - 1 := by
  have h3 := ceilDiv_add_right (a - b) b hb
  have h1 : a - b + b = a := by omega
  rw [h1] at h3
  omega

theorem ceilDiv_le_one (a b : Nat) (h : a ≤ b) : ceilDiv a b ≤ 1 := by
  rcases Nat.eq_zero_or_pos b with hb | hb
  · subst hb
    interval_cases a
    simp [ceilDiv]
  · have h2 : ceilDiv a b < 2 := by
      rw [ceilDiv, Nat.div_lt_iff_lt_mul hb]
      omega
    omega

theorem ceilDiv_pos (a b : Nat) (ha : 0 < a) (hb : 0 < b) : 0 < ceilDiv a b := by
  have h1 : 1 ≤ (a + b - 1) / b := (Nat.le_div_iff_mul_le hb).mpr (by omega)
  rw [ceilDiv]
  omega

theorem ceilDiv_le_self (a b : Nat) (hb : 0 < b) : ceilDiv a b ≤ a := by
  rw [ceilDiv, Nat.div_le_iff_le_mul_add_pred hb]
  have hab : a ≤ b * a := Nat.le_mul_of_pos_left a hb
  omega

theorem ceilDiv_eq_one (a b : Nat) (ha : 0 < a) (hb : 0 < b) (h : a ≤ b) :
    ceilDiv a b = 1 :=
  le_antisymm (ceilDiv_le_one a b h) (ceilDiv_pos a b ha hb)

theorem one_lt_ceilDiv (a b : Nat) (hb : 0 < b) (h : b < a) : 1 < ceilDiv a b := by
  have h1 : 0 < ceilDiv (a - b) b := ceilDiv_pos _ _ (by omega) hb
  have h2 := ceilDiv_sub_self a b hb h
  omega

/-- The claim's formula: the maximum over wrap-enabled (non-custom-wrap)
visible columns of ceil(displayWidth(value) / columnWidth) - 1. -/
def maxWrapLinesClaim (tb : Table) (ln : Row) : Nat :=
  tb.cols.foldr
    (fun cl m =>
      max
        (if !cl.isHidden && cl.isWrap && !(scols_column_is_customwrap cl) then
          ceilDiv (mwidth (cell_data ln cl.seqnum)) cl.width - 1
        else 0)
        m)
    0

/-- The amended formula: the maximum over wrap-enabled, non-truncating,
non-custom-wrap visible columns of ceil(displayWidth(value) / columnWidth)
minus one. -/
def maxWrapLines (tb : Table) (ln : Row) : Nat :=
  tb.cols.foldr
    (fun cl m =>
      max
        (if !cl.isHidden && cl.isWrap && !cl.isTrunc &&
            !(scols_column_is_customwrap cl) then
          ceilDiv (mwidth (cell_data ln cl.seqnum)) cl.width - 1
        else 0)
        m)
    0

/-- Renderer-reachable shape of a column's pending state: either empty, or a
valid owned buffer with the cursor strictly inside it, the size the length
of the remaining tail, on a visible wrapping column of positive width with
no custom chunking. -/
def goodPend (cl : Column) (p : ColPending) : Prop :=
  p.buf = none ∨
  ∃ b, p.buf = some b ∧ validStr b = true ∧ p.off < b.length ∧
    p.sz = b.length - p.off ∧ 0 < cl.width ∧ cl.isWrap = true ∧
    cl.wrap_nextchunk = none ∧ cl.isHidden = false

/-- Number of extra lines a column's pending state still needs. -/
def drainCount (cl : Column) (p : ColPending) : Nat :=
  match p.buf with
  | none => 0
  | some _ => ceilDiv p.sz cl.width

/-- One drain of a pending state: the step the pending loop applies to a
column that holds data (identity on an empty state). -/
def drainStep (cl : Column) (p : ColPending) : ColPending :=
  match p.buf with
  | none => p
  | some _ => step_pending_data p (min cl.width p.sz)

/-- The maximum drain count over a column list. -/
def maxDrain (cols : List Column) (st : RState) : Nat :=
  cols.foldr (fun cl m => max (drainCount cl (getPend st cl.seqnum)) m) 0

/-- The has-pending flag over a column list, as print_line computes it. -/
def pendFlag (cols : List Column) (st : RState) : Bool :=
  cols.any fun cl => !cl.isHidden && (getPend st cl.seqnum).buf.isSome

theorem drainCount_drainStep (cl : Column) (p : ColPending) (h : goodPend cl p) :
    drainCount cl (drainStep cl p) = drainCount cl p - 1 ∧
    goodPend cl (drainStep cl p) := by
  rcases h with h | ⟨b, hb, hv, hoff, hsz, hw, hwrap, hcw, hh⟩
  · have hid : drainStep cl p = p := by
      simp [drainStep, h]
    rw [hid]
    exact ⟨by simp [drainCount, h], Or.inl h⟩
  · rcases p with ⟨pb, po, ps⟩
    simp only at hb hoff hsz
    subst hb
    have hps : 0 < ps := by omega
    by_cases hle : ps ≤ cl.width
    · have hmin : min cl.width ps = ps := Nat.min_eq_right hle
      have hstep : drainStep cl ⟨some b, po, ps⟩ = ⟨none, 0, 0⟩ := by
        simp [drainStep, hmin, step_pending_data, set_pending_data]
      rw [hstep]
      constructor
      · simp [drainCount, ceilDiv_eq_one ps cl.width hps hw hle]
      · exact Or.inl rfl
    · have hmin : min cl.width ps = cl.width := Nat.min_eq_left (by omega)
      have hstep : drainStep cl ⟨some b, po, ps⟩ = ⟨some b, po + cl.width, ps - cl.width⟩ := by
        simp [drainStep, hmin, step_pending_data]
        omega
      rw [hstep]
      constructor
      · simp only [drainCount]
        exact ceilDiv_sub_self ps cl.width hw (by omega)
      · right
        refine ⟨b, rfl, hv, ?_, ?_, hw, hwrap, hcw, hh⟩
        · show po + cl.width < List.length b
          omega
        · show ps - cl.width = List.length b - (po + cl.width)
          omega

theorem foldr_max_congr (l : List Column) (f g : Column → Nat)
    (h : ∀ x ∈ l, f x = g x) :
    l.foldr (fun x m => max (f x) m) 0 = l.foldr (fun x m => max (g x) m) 0 := by
  induction l with
  | nil => rfl
  | cons a rest ih =>
    simp only [List.foldr_cons]
    rw [h a (List.mem_cons_self a rest), ih fun x hx => h x (List.mem_cons_of_mem a hx)]

theorem nat_max_sub_one (x y : Nat) : max (x - 1) (y - 1) = max x y - 1 := by
  rcases Nat.le_total x y with h | h
  · rw [Nat.max_eq_right h, Nat.max_eq_right (by omega)]
  · rw [Nat.max_eq_left h, Nat.max_eq_left (by omega)]

theorem foldr_max_sub_one (l : List Column) (f : Column → Nat) :
    l.foldr (fun x m => max (f x - 1) m) 0 = l.foldr (fun x m => max (f x) m) 0 - 1 := by
  induction l with
  | nil => rfl
  | cons a rest ih =>
    simp only [List.foldr_cons, ih]
    exact nat_max_sub_one _ _

theorem foldr_max_le (l : List Column) (f : Column → Nat) (c : Nat)
    (h : ∀ x ∈ l, f x ≤ c) :
    l.foldr (fun x m => max (f x) m) 0 ≤ c := by
  induction l with
  | nil => exact Nat.zero_le c
  | cons a rest ih =>
    simp only [List.foldr_cons]
    exact max_le (h a (List.mem_cons_self a rest))
      (ih fun x hx => h x (List.mem_cons_of_mem a hx))

theorem pendFlag_eq_maxDrain (cols : List Column) (st : RState)
    (hgood : ∀ cl ∈ cols, goodPend cl (getPend st cl.seqnum)) :
    pendFlag cols st = decide (0 < maxDrain cols st) := by
  induction cols with
  | nil => rfl
  | cons c rest ih =>
    have hc := hgood c (List.mem_cons_self c rest)
    have hcontrib : (!c.isHidden && (getPend st c.seqnum).buf.isSome) =
        decide (0 < drainCount c (getPend st c.seqnum)) := by
      rcases hc with h | ⟨b, hb, _, hoff, hsz, hw, _, _, hh⟩
      · simp [h, drainCount]
      · have hps : 0 < (getPend st c.seqnum).sz := by omega
        simp [hb, hh, drainCount, ceilDiv_pos _ _ hps hw]
    have hrest := ih fun x hx => hgood x (List.mem_cons_of_mem c hx)
    show ((!c.isHidden && (getPend st c.seqnum).buf.isSome) || pendFlag rest st) = _
    rw [hcontrib, hrest]
    have : maxDrain (c :: rest) st =
        max (drainCount c (getPend st c.seqnum)) (maxDrain rest st) := rfl
    rw [this]
    rcases Nat.eq_zero_or_pos (drainCount c (getPend st c.seqnum)) with h1 | h1 <;>
      rcases Nat.eq_zero_or_pos (maxDrain rest st) with h2 | h2 <;>
      simp [h1, h2]

theorem print_pending_data_proj (tb : Table) (cl : Column) (ln : Option Row)
    (ce : Option Cell) (st : RState) (b : Str) (off : Nat)
    (hp1 : getPend st cl.seqnum = { buf := some b, off := off, sz := b.length - off })
    (hv : validStr b = true) (hw : 0 < cl.width) (hcw : cl.wrap_nextchunk = none)
    (hoff : off < b.length) :
    (print_pending_data tb cl ln ce st).2 = 0 ∧
    (print_pending_data tb cl ln ce st).1.pends =
      st.pends.set cl.seqnum
        (drainStep cl { buf := some b, off := off, sz := b.length - off }) ∧
    (print_pending_data tb cl ln ce st).1.termlines_used = st.termlines_used ∧
    (print_pending_data tb cl ln ce st).1.header_printed = st.header_printed ∧
    (print_pending_data tb cl ln ce st).1.header_next = st.header_next := by
  have hbytes : ((b.drop off).take cl.width).length = min cl.width (b.length - off) := by
    simp [List.length_take, List.length_drop]
  have hbne : ((b.drop off).take cl.width).length ≠ 0 := by
    rw [hbytes]
    omega
  have hds : drainStep cl { buf := some b, off := off, sz := b.length - off } =
      step_pending_data { buf := some b, off := off, sz := b.length - off }
        ((b.drop off).take cl.width).length := by
    rw [drainStep, hbytes]
  rw [hds]
  unfold print_pending_data
  rw [hp1]
  simp only [Nat.pos_iff_ne_zero.mp hw, if_false, scols_column_is_customwrap, hcw,
    Option.isSome_none, Bool.and_false, Bool.false_eq_true, if_neg, mbs_truncate,
    validStr_drop b off hv, if_true, Option.map_some, hbne]
  have hx : ¬ List.length b - off = 0 := by omega
  have hy : ¬ cl.width = 0 := by omega
  split_ifs <;> simp [setPend, hx, hy]

theorem getPend_pends_set (st st2 : RState) (i : Nat) (p : ColPending)
    (h : st2.pends = st.pends.set i p) :
    (∀ j, j ≠ i → getPend st2 j = getPend st j) ∧
    (i < st.pends.length → getPend st2 i = p) := by
  constructor
  · intro j hj
    unfold getPend
    rw [h, List.get?_eq_getElem?, List.getElem?_set_ne (fun he => hj he.symm),
      List.get?_eq_getElem?]
  · intro hi
    unfold getPend
    rw [h, List.get?_eq_getElem?, List.getElem?_set_eq_of_lt p hi]
    rfl

theorem bool_if_true_or (a p : Bool) : (if a = true then true else p) = (p || a) := by
  cases a <;> cases p <;> rfl

theorem pending_cells_drain (tb : Table) (ln : Row) (cs : List Column) :
    ∀ (st : RState) (pending : Bool),
    (∀ cl ∈ cs, goodPend cl (getPend st cl.seqnum)) →
    cs.Pairwise (fun a b => a.seqnum ≠ b.seqnum) →
    (∀ cl ∈ cs, cl.seqnum < st.pends.length) →
    (pending_cells tb ln cs st 0 pending).2.1 = 0 ∧
    (∀ cl ∈ cs, getPend (pending_cells tb ln cs st 0 pending).1 cl.seqnum =
      drainStep cl (getPend st cl.seqnum)) ∧
    (∀ j, (∀ cl ∈ cs, cl.seqnum ≠ j) →
      getPend (pending_cells tb ln cs st 0 pending).1 j = getPend st j) ∧
    (pending_cells tb ln cs st 0 pending).1.termlines_used = st.termlines_used ∧
    (pending_cells tb ln cs st 0 pending).1.pends.length = st.pends.length ∧
    (pending_cells tb ln cs st 0 pending).2.2 =
      (pending || cs.any fun cl =>
        !cl.isHidden &&
          (getPend (pending_cells tb ln cs st 0 pending).1 cl.seqnum).buf.isSome) := by
  induction cs with
  | nil =>
    intro st pending _ _ _
    simp [pending_cells]
  | cons c rest ih =>
    intro st pending hgood hdisj hlen
    have hdisj2 := (List.pairwise_cons.mp hdisj).2
    have hcne := (List.pairwise_cons.mp hdisj).1
    by_cases hh : c.isHidden
    · have hstep : pending_cells tb ln (c :: rest) st 0 pending =
          pending_cells tb ln rest st 0 pending := by
        rw [pending_cells]
        simp [hh]
      have hr := ih st pending (fun x hx => hgood x (List.mem_cons_of_mem c hx)) hdisj2
        (fun x hx => hlen x (List.mem_cons_of_mem c hx))
      rw [hstep]
      refine ⟨hr.1, ?_, ?_, hr.2.2.2.1, hr.2.2.2.2.1, ?_⟩
      · intro cl hcl
        rcases List.mem_cons.mp hcl with hcl | hcl
        · subst hcl
          have hg := hgood cl (List.mem_cons_self cl rest)
          have hb : (getPend st cl.seqnum).buf = none := by
            rcases hg with hg | ⟨b, hb, _, _, _, _, _, _, hh2⟩
            · exact hg
            · rw [hh2] at hh
              cases hh
          have hid : drainStep cl (getPend st cl.seqnum) = getPend st cl.seqnum := by
            simp [drainStep, hb]
          rw [hid]
          exact hr.2.2.1 cl.seqnum fun x hx => (hcne x hx).symm
        · exact hr.2.1 cl hcl
      · intro j hj
        exact hr.2.2.1 j fun x hx => hj x (List.mem_cons_of_mem c hx)
      · rw [hr.2.2.2.2.2]
        simp [hh]
    · by_cases hs : (getPend st c.seqnum).buf.isSome
      · have hg := hgood c (List.mem_cons_self c rest)
        rcases hg with hg | ⟨b, hb, hv, hoff, hsz, hw, hwrap, hcw, _⟩
        · rw [hg] at hs
          cases hs
        have hp1 : getPend st c.seqnum =
            { buf := some b, off := (getPend st c.seqnum).off,
              sz := b.length - (getPend st c.seqnum).off } := by
          rcases hpe : getPend st c.seqnum with ⟨pb, po, ps⟩
          rw [hpe] at hb hsz
          simp only at hb hsz
          simp [hb, hsz]
        have hproj := print_pending_data_proj tb c (some ln)
          (scols_line_get_cell ln c.seqnum) st b (getPend st c.seqnum).off hp1 hv hw hcw hoff
        have hpends : (print_pending_data tb c (some ln)
            (scols_line_get_cell ln c.seqnum) st).1.pends =
            st.pends.set c.seqnum (drainStep c (getPend st c.seqnum)) := by
          rw [hproj.2.1, ← hp1]
        have hset := getPend_pends_set st
          (print_pending_data tb c (some ln) (scols_line_get_cell ln c.seqnum) st).1
          c.seqnum (drainStep c (getPend st c.seqnum)) hpends
        have hgc : getPend (print_pending_data tb c (some ln)
            (scols_line_get_cell ln c.seqnum) st).1 c.seqnum =
            drainStep c (getPend st c.seqnum) :=
          hset.2 (hlen c (List.mem_cons_self c rest))
        have hstep : pending_cells tb ln (c :: rest) st 0 pending =
            pending_cells tb ln rest
              (print_pending_data tb c (some ln) (scols_line_get_cell ln c.seqnum) st).1 0
              (pending || (getPend (print_pending_data tb c (some ln)
                (scols_line_get_cell ln c.seqnum) st).1 c.seqnum).buf.isSome) := by
          rw [pending_cells]
          simp only [hh, hs, hproj.1]
          rw [bool_if_true_or]
          simp
        rw [hstep]
        have hgoodr : ∀ x ∈ rest, goodPend x (getPend (print_pending_data tb c (some ln)
            (scols_line_get_cell ln c.seqnum) st).1 x.seqnum) := by
          intro x hx
          rw [hset.1 x.seqnum fun he => (hcne x hx) he.symm]
          exact hgood x (List.mem_cons_of_mem c hx)
        have hlenr : ∀ x ∈ rest, x.seqnum < ((print_pending_data tb c (some ln)
            (scols_line_get_cell ln c.seqnum) st).1).pends.length := by
          intro x hx
          rw [hpends, List.length_set]
          exact hlen x (List.mem_cons_of_mem c hx)
        have hr := ih _
          (pending || (getPend (print_pending_data tb c (some ln)
            (scols_line_get_cell ln c.seqnum) st).1 c.seqnum).buf.isSome)
          hgoodr hdisj2 hlenr
        refine ⟨hr.1, ?_, ?_, ?_, ?_, ?_⟩
        · intro cl hcl
          rcases List.mem_cons.mp hcl with hcl | hcl
          · subst hcl
            rw [hr.2.2.1 cl.seqnum fun x hx => (hcne x hx).symm, hgc]
          · rw [hr.2.1 cl hcl, hset.1 cl.seqnum fun he => (hcne cl hcl) he.symm]
        · intro j hj
          rw [hr.2.2.1 j fun x hx => hj x (List.mem_cons_of_mem c hx),
            hset.1 j (hj c (List.mem_cons_self c rest)).symm]
        · rw [hr.2.2.2.1, hproj.2.2.1]
        · rw [hr.2.2.2.2.1, hpends, List.length_set]
        · rw [hr.2.2.2.2.2]
          have hfc : getPend (pending_cells tb ln rest (print_pending_data tb c (some ln)
              (scols_line_get_cell ln c.seqnum) st).1 0
              (pending || (getPend (print_pending_data tb c (some ln)
                (scols_line_get_cell ln c.seqnum) st).1 c.seqnum).buf.isSome)).1 c.seqnum =
              getPend (print_pending_data tb c (some ln)
                (scols_line_get_cell ln c.seqnum) st).1 c.seqnum :=
            hr.2.2.1 c.seqnum fun x hx => (hcne x hx).symm
          simp only [List.any_cons, hh, Bool.not_false, Bool.true_and, hfc]
          cases pending <;>
            cases hsome : (getPend (print_pending_data tb c (some ln)
              (scols_line_get_cell ln c.seqnum) st).1 c.seqnum).buf.isSome <;> simp
      · have hb2 : (getPend st c.seqnum).buf = none := by
          rcases hbb : (getPend st c.seqnum).buf with _ | bb
          · rfl
          · rw [hbb] at hs
            simp at hs
        have hstep : pending_cells tb ln (c :: rest) st 0 pending =
            pending_cells tb ln rest (print_empty_cell tb c (some ln) st) 0 pending := by
          rw [pending_cells]
          simp [hh, hs]
        have hpe := print_empty_cell_pends tb c (some ln) st
        have hgp : ∀ j, getPend (print_empty_cell tb c (some ln) st) j = getPend st j := by
          intro j
          unfold getPend
          rw [hpe.1]
        have hr := ih (print_empty_cell tb c (some ln) st) pending
          (fun x hx => by rw [hgp x.seqnum]; exact hgood x (List.mem_cons_of_mem c hx))
          hdisj2
          (fun x hx => by rw [hpe.1]; exact hlen x (List.mem_cons_of_mem c hx))
        rw [hstep]
        refine ⟨hr.1, ?_, ?_, ?_, ?_, ?_⟩
        · intro cl hcl
          rcases List.mem_cons.mp hcl with hcl | hcl
          · subst hcl
            have hid : drainStep cl (getPend st cl.seqnum) = getPend st cl.seqnum := by
              simp [drainStep, hb2]
            rw [hid, hr.2.2.1 cl.seqnum fun x hx => (hcne x hx).symm, hgp]
          · rw [hr.2.1 cl hcl, hgp]
        · intro j hj
          rw [hr.2.2.1 j fun x hx => hj x (List.mem_cons_of_mem c hx), hgp]
        · rw [hr.2.2.2.1, hpe.2.1]
        · rw [hr.2.2.2.2.1, hpe.1]
        · rw [hr.2.2.2.2.2]
          simp only [List.any_cons, hh, Bool.not_false, Bool.true_and]
          rw [hr.2.2.1 c.seqnum fun x hx => (hcne x hx).symm, hgp, hb2]
          simp

theorem pending_loop_count (tb : Table) (ln : Row) (n : Nat) :
    ∀ (fuel : Nat) (st : RState),
    (∀ cl ∈ tb.cols, goodPend cl (getPend st cl.seqnum)) →
    tb.cols.Pairwise (fun a b => a.seqnum ≠ b.seqnum) →
    (∀ cl ∈ tb.cols, cl.seqnum < st.pends.length) →
    maxDrain tb.cols st = n →
    n < fuel →
    (pending_loop tb ln fuel st 0 (pendFlag tb.cols st)).1.termlines_used =
      st.termlines_used + n ∧
    (pending_loop tb ln fuel st 0 (pendFlag tb.cols st)).2 = 0 := by
  induction n with
  | zero =>
    intro fuel st hgood hdisj hlen hmax hfuel
    have hflag : pendFlag tb.cols st = false := by
      rw [pendFlag_eq_maxDrain tb.cols st hgood, hmax]
      simp
    rcases fuel with _ | f
    · omega
    · rw [hflag, pending_loop]
      simp
  | succ m ihm =>
    intro fuel st hgood hdisj hlen hmax hfuel
    have hflag : pendFlag tb.cols st = true := by
      rw [pendFlag_eq_maxDrain tb.cols st hgood, hmax]
      simp
    rcases fuel with _ | f
    · omega
    rw [hflag, pending_loop]
    rw [if_pos (show (decide ((0 : Int) = 0) && true) = true by simp)]
    set st1 : RState :=
      { st with out := st.out ++ linesep tb,
                termlines_used := st.termlines_used + 1 } with hst1
    have hgp1 : ∀ j, getPend st1 j = getPend st j := fun j => rfl
    have hgood1 : ∀ cl ∈ tb.cols, goodPend cl (getPend st1 cl.seqnum) := by
      intro x hx
      rw [hgp1]
      exact hgood x hx
    have hlen1 : ∀ cl ∈ tb.cols, cl.seqnum < st1.pends.length := hlen
    have hr := pending_cells_drain tb ln tb.cols st1 false hgood1 hdisj hlen1
    have hgood2 : ∀ cl ∈ tb.cols,
        goodPend cl (getPend (pending_cells tb ln tb.cols st1 0 false).1 cl.seqnum) := by
      intro x hx
      rw [hr.2.1 x hx, hgp1]
      exact (drainCount_drainStep x _ (hgood x hx)).2
    have hmax2 : maxDrain tb.cols (pending_cells tb ln tb.cols st1 0 false).1 = m := by
      unfold maxDrain
      rw [foldr_max_congr tb.cols _
        (fun cl => drainCount cl (getPend st cl.seqnum) - 1)
        (fun x hx => by
          rw [hr.2.1 x hx, hgp1]
          exact (drainCount_drainStep x _ (hgood x hx)).1)]
      rw [foldr_max_sub_one]
      have : tb.cols.foldr
          (fun x m2 => max (drainCount x (getPend st x.seqnum)) m2) 0 = m + 1 := hmax
      rw [this]
      omega
    have hlen2 : ∀ cl ∈ tb.cols,
        cl.seqnum < (pending_cells tb ln tb.cols st1 0 false).1.pends.length := by
      intro x hx
      rw [hr.2.2.2.2.1]
      exact hlen x hx
    have hflag2 : (pending_cells tb ln tb.cols st1 0 false).2.2 =
        pendFlag tb.cols (pending_cells tb ln tb.cols st1 0 false).1 := by
      rw [hr.2.2.2.2.2]
      simp [pendFlag]
    have hrec := ihm f (pending_cells tb ln tb.cols st1 0 false).1 hgood2 hdisj hlen2
      hmax2 (by omega)
    show (pending_loop tb ln f (pending_cells tb ln tb.cols st1 0 false).1
        (pending_cells tb ln tb.cols st1 0 false).2.1
        (pending_cells tb ln tb.cols st1 0 false).2.2).1.termlines_used =
        st.termlines_used + (m + 1) ∧
      (pending_loop tb ln f (pending_cells tb ln tb.cols st1 0 false).1
        (pending_cells tb ln tb.cols st1 0 false).2.1
        (pending_cells tb ln tb.cols st1 0 false).2.2).2 = 0
    rw [hr.1, hflag2]
    refine ⟨?_, hrec.2⟩
    rw [hrec.1, hr.2.2.2.1]
    show st.termlines_used + 1 + m = st.termlines_used + (m + 1)
    omega

theorem cell_to_buffer_nontree (tb : Table) (ln : Row) (cl : Column)
    (h : cl.isTree = false) :
    __cell_to_buffer tb ln cl = { data := cell_data ln cl.seqnum, art_idx := 0 } := by
  unfold __cell_to_buffer
  rcases hd : (scols_line_get_cell ln cl.seqnum).bind scols_cell_get_data with _ | d <;>
    simp [h, cell_data, hd]

theorem pd_fill_proj (tb : Table) (cl : Column) (ln : Option Row) (is_last : Bool)
    (width len6 : Nat) (st3 : RState) (h : len6 ≤ width) :
    (pd_fill tb cl ln is_last width len6 st3).2 = 0 ∧
    (pd_fill tb cl ln is_last width len6 st3).1.pends = st3.pends ∧
    (pd_fill tb cl ln is_last width len6 st3).1.termlines_used = st3.termlines_used := by
  rw [pd_fill_no_overflow _ _ _ _ _ _ _ h]
  split_ifs <;> simp

/-- Pending state a column holds right after the first render pass of a
row: the full cell text with the cursor past the first printed cut, for a
wrapping, non-truncating column whose text overflows; empty otherwise. -/
def firstPend (cl : Column) (d : Str) : ColPending :=
  if cl.isWrap = true ∧ cl.isTrunc = false ∧ cl.width < mwidth d then
    { buf := some d, off := cl.width, sz := d.length - cl.width }
  else {}

theorem print_data_first_proj (tb : Table) (cl : Column) (lno : Option Row)
    (ce : Option Cell) (buf : LBuffer) (st : RState)
    (h1 : tb.format = .human) (hcw : cl.wrap_nextchunk = none)
    (hval : validStr buf.data = true) (hw : 0 < cl.width)
    (hover : cl.width < mwidth buf.data → cl.isTrunc = true ∨ cl.isWrap = true)
    (hlen : cl.seqnum < st.pends.length)
    (hp : getPend st cl.seqnum = {}) :
    (print_data tb cl lno ce buf st).2 = 0 ∧
    getPend (print_data tb cl lno ce buf st).1 cl.seqnum = firstPend cl buf.data ∧
    (∀ j, j ≠ cl.seqnum →
      getPend (print_data tb cl lno ce buf st).1 j = getPend st j) ∧
    (print_data tb cl lno ce buf st).1.termlines_used = st.termlines_used ∧
    (print_data tb cl lno ce buf st).1.pends.length = st.pends.length := by
  rw [print_data_of_human tb cl lno ce buf st h1]
  unfold print_data_human
  simp only [pd_custom_none _ _ _ _ _ hcw]
  by_cases hov : mwidth buf.data ≤ cl.width
  · -- no overflow: nothing pends
    simp only [pd_trunc_le cl _ buf.data _ _ (shrink_width_le tb cl _ _ _ hov),
      pd_wrap_le cl st _ buf.data _ _ (shrink_width_le tb cl _ _ _ hov), pd_fail_some]
    have hemit := pd_emit_pends tb cl buf (get_cell_color tb cl lno ce) st
      (shrink_width tb cl (is_last_column tb cl) (mwidth buf.data) cl.width)
      buf.data (mwidth buf.data) buf.data.length
    have hlen6 : (if (decide (buf.data ≠ []) && cl.isRight) = true then
        shrink_width tb cl (is_last_column tb cl) (mwidth buf.data) cl.width
        else mwidth buf.data) ≤
        shrink_width tb cl (is_last_column tb cl) (mwidth buf.data) cl.width := by
      split_ifs
      · exact le_refl _
      · exact shrink_width_le tb cl _ _ _ hov
    have hfill := pd_fill_proj tb cl lno (is_last_column tb cl) _ _
      (pd_emit tb cl buf (get_cell_color tb cl lno ce) st
        (shrink_width tb cl (is_last_column tb cl) (mwidth buf.data) cl.width)
        buf.data (mwidth buf.data) buf.data.length) hlen6
    have hfp : firstPend cl buf.data = ({} : ColPending) := by
      unfold firstPend
      rw [if_neg]
      intro hc
      omega
    refine ⟨hfill.1, ?_, ?_, ?_, ?_⟩
    · rw [hfp]
      unfold getPend
      rw [hfill.2.1, hemit.1]
      exact hp
    · intro j _
      unfold getPend
      rw [hfill.2.1, hemit.1]
    · rw [hfill.2.2, hemit.2.1]
    · rw [hfill.2.1, hemit.1]
  · have hov2 : cl.width < mwidth buf.data := by omega
    have hsw : shrink_width tb cl (is_last_column tb cl) (mwidth buf.data) cl.width =
        cl.width := shrink_width_not_lt tb cl _ _ _ (by omega)
    rw [hsw]
    rcases htr : cl.isTrunc with _ | _
    · -- wrapping column: pending captured
      have hwr : cl.isWrap = true := by
        rcases hover hov2 with h | h
        · rw [htr] at h
          cases h
        · exact h
      simp only [pd_trunc_off cl cl.width buf.data _ _ htr]
      have hlenb : cl.width < buf.data.length := hov2
      have hwo := pd_wrap_over cl st cl.width buf.data hlenb hwr hcw hval hw hlen
      simp only [mwidth] at hwo ⊢
      simp only [hwo, pd_fail_some]
      have hemit := pd_emit_pends tb cl buf (get_cell_color tb cl lno ce)
        (setPend st cl.seqnum
          { buf := some buf.data, off := cl.width, sz := buf.data.length - cl.width })
        cl.width (buf.data.take cl.width) (buf.data.take cl.width).length
        (buf.data.take cl.width).length
      have hlen6 : (if (decide (buf.data.take cl.width ≠ []) && cl.isRight) = true then
          cl.width else (buf.data.take cl.width).length) ≤ cl.width := by
        split_ifs
        · exact le_refl _
        · exact le_trans (List.length_take_le _ _) (le_refl _)
      have hfill := pd_fill_proj tb cl lno (is_last_column tb cl) cl.width _
        (pd_emit tb cl buf (get_cell_color tb cl lno ce)
          (setPend st cl.seqnum
            { buf := some buf.data, off := cl.width, sz := buf.data.length - cl.width })
          cl.width (buf.data.take cl.width) (buf.data.take cl.width).length
          (buf.data.take cl.width).length) hlen6
      have hfp : firstPend cl buf.data =
          { buf := some buf.data, off := cl.width, sz := buf.data.length - cl.width } := by
        unfold firstPend
        rw [if_pos ⟨hwr, htr, hov2⟩]
      refine ⟨hfill.1, ?_, ?_, ?_, ?_⟩
      · rw [hfp]
        unfold getPend
        rw [hfill.2.1, hemit.1]
        exact getPend_setPend_self st cl.seqnum _ hlen
      · intro j hj
        unfold getPend
        rw [hfill.2.1, hemit.1]
        exact getPend_setPend_ne st cl.seqnum j _ (fun he => hj he.symm)
      · rw [hfill.2.2, hemit.2.1]
        rfl
      · rw [hfill.2.1, hemit.1]
        simp [setPend]
    · -- truncating column: cut, nothing pends
      simp only [pd_trunc_over cl cl.width buf.data _ _ hov2 htr hval]
      have htk : (buf.data.take cl.width).length ≤ cl.width := List.length_take_le _ _
      simp only [pd_wrap_le cl st cl.width (buf.data.take cl.width) _ _ htk, pd_fail_some]
      have hemit := pd_emit_pends tb cl buf (get_cell_color tb cl lno ce) st cl.width
        (buf.data.take cl.width) (buf.data.take cl.width).length
        (buf.data.take cl.width).length
      have hlen6 : (if (decide (buf.data.take cl.width ≠ []) && cl.isRight) = true then
          cl.width else (buf.data.take cl.width).length) ≤ cl.width := by
        split_ifs
        · exact le_refl _
        · exact htk
      have hfill := pd_fill_proj tb cl lno (is_last_column tb cl) cl.width _
        (pd_emit tb cl buf (get_cell_color tb cl lno ce) st cl.width
          (buf.data.take cl.width) (buf.data.take cl.width).length
          (buf.data.take cl.width).length) hlen6
      have hfp : firstPend cl buf.data = ({} : ColPending) := by
        unfold firstPend
        rw [if_neg]
        intro hc
        rw [htr] at hc
        exact absurd hc.2.1 (by simp)
      refine ⟨hfill.1, ?_, ?_, ?_, ?_⟩
      · rw [hfp]
        unfold getPend
        rw [hfill.2.1, hemit.1]
        exact hp
      · intro j _
        unfold getPend
        rw [hfill.2.1, hemit.1]
      · rw [hfill.2.2, hemit.2.1]
      · rw [hfill.2.1, hemit.1]

theorem print_line_cells_pass (tb : Table) (ln : Row) (cs : List Column) :
    ∀ (st : RState) (pending : Bool),
    tb.format = .human →
    (∀ cl ∈ cs, cl.wrap_nextchunk = none) →
    (∀ cl ∈ cs, cl.isTree = false) →
    (∀ cl ∈ cs, validStr (cell_data ln cl.seqnum) = true) →
    (∀ cl ∈ cs, cl.isHidden = false → 0 < cl.width) →
    (∀ cl ∈ cs, cl.isHidden = false → cl.width < mwidth (cell_data ln cl.seqnum) →
      cl.isTrunc = true ∨ cl.isWrap = true) →
    (∀ cl ∈ cs, getPend st cl.seqnum = {}) →
    cs.Pairwise (fun a b => a.seqnum ≠ b.seqnum) →
    (∀ cl ∈ cs, cl.seqnum < st.pends.length) →
    (print_line_cells tb ln cs st 0 pending).2.1 = 0 ∧
    (∀ cl ∈ cs, getPend (print_line_cells tb ln cs st 0 pending).1 cl.seqnum =
      (if cl.isHidden then {} else firstPend cl (cell_data ln cl.seqnum))) ∧
    (∀ j, (∀ cl ∈ cs, cl.seqnum ≠ j) →
      getPend (print_line_cells tb ln cs st 0 pending).1 j = getPend st j) ∧
    (print_line_cells tb ln cs st 0 pending).1.termlines_used = st.termlines_used ∧
    (print_line_cells tb ln cs st 0 pending).1.pends.length = st.pends.length ∧
    (print_line_cells tb ln cs st 0 pending).2.2 =
      (pending || cs.any fun cl =>
        !cl.isHidden &&
          (getPend (print_line_cells tb ln cs st 0 pending).1 cl.seqnum).buf.isSome) := by
  induction cs with
  | nil =>
    intro st pending _ _ _ _ _ _ _ _ _
    simp [print_line_cells]
  | cons c rest ih =>
    intro st pending hfmt hcw htree hval hw hover hp hdisj hlen
    have hdisj2 := (List.pairwise_cons.mp hdisj).2
    have hcne := (List.pairwise_cons.mp hdisj).1
    by_cases hh : c.isHidden
    · have hstep : print_line_cells tb ln (c :: rest) st 0 pending =
          print_line_cells tb ln rest st 0 pending := by
        rw [print_line_cells]
        simp [hh]
      have hr := ih st pending hfmt (fun x hx => hcw x (List.mem_cons_of_mem c hx))
        (fun x hx => htree x (List.mem_cons_of_mem c hx))
        (fun x hx => hval x (List.mem_cons_of_mem c hx))
        (fun x hx => hw x (List.mem_cons_of_mem c hx))
        (fun x hx => hover x (List.mem_cons_of_mem c hx))
        (fun x hx => hp x (List.mem_cons_of_mem c hx)) hdisj2
        (fun x hx => hlen x (List.mem_cons_of_mem c hx))
      rw [hstep]
      refine ⟨hr.1, ?_, ?_, hr.2.2.2.1, hr.2.2.2.2.1, ?_⟩
      · intro cl hcl
        rcases List.mem_cons.mp hcl with hcl | hcl
        · subst hcl
          rw [if_pos hh, hr.2.2.1 cl.seqnum fun x hx => (hcne x hx).symm]
          exact hp cl (List.mem_cons_self cl rest)
        · exact hr.2.1 cl hcl
      · intro j hj
        exact hr.2.2.1 j fun x hx => hj x (List.mem_cons_of_mem c hx)
      · rw [hr.2.2.2.2.2]
        simp [hh]
    · have hhf : c.isHidden = false := by
        simpa using hh
      have hbuf := cell_to_buffer_nontree tb ln c (htree c (List.mem_cons_self c rest))
      have hproj := print_data_first_proj tb c (some ln)
        (scols_line_get_cell ln c.seqnum) { data := cell_data ln c.seqnum, art_idx := 0 }
        st hfmt (hcw c (List.mem_cons_self c rest)) (hval c (List.mem_cons_self c rest))
        (hw c (List.mem_cons_self c rest) hhf) (hover c (List.mem_cons_self c rest) hhf)
        (hlen c (List.mem_cons_self c rest)) (hp c (List.mem_cons_self c rest))
      set r1 := print_data tb c (some ln) (scols_line_get_cell ln c.seqnum)
        { data := cell_data ln c.seqnum, art_idx := 0 } st with hr1
      have hstep : print_line_cells tb ln (c :: rest) st 0 pending =
          print_line_cells tb ln rest r1.1 0
            (pending || (getPend r1.1 c.seqnum).buf.isSome) := by
        rw [print_line_cells]
        simp only [hh, hbuf]
        rw [← hr1]
        simp only [hproj.1]
        rw [bool_if_true_or]
        simp
      rw [hstep]
      have hfr : ∀ x ∈ rest, getPend r1.1 x.seqnum = getPend st x.seqnum := by
        intro x hx
        exact hproj.2.2.1 x.seqnum fun he => (hcne x hx) he.symm
      have hr := ih r1.1 (pending || (getPend r1.1 c.seqnum).buf.isSome) hfmt
        (fun x hx => hcw x (List.mem_cons_of_mem c hx))
        (fun x hx => htree x (List.mem_cons_of_mem c hx))
        (fun x hx => hval x (List.mem_cons_of_mem c hx))
        (fun x hx => hw x (List.mem_cons_of_mem c hx))
        (fun x hx => hover x (List.mem_cons_of_mem c hx))
        (fun x hx => by
          rw [hfr x hx]
          exact hp x (List.mem_cons_of_mem c hx))
        hdisj2
        (fun x hx => by
          rw [hproj.2.2.2.2]
          exact hlen x (List.mem_cons_of_mem c hx))
      refine ⟨hr.1, ?_, ?_, ?_, ?_, ?_⟩
      · intro cl hcl
        rcases List.mem_cons.mp hcl with hcl | hcl
        · subst hcl
          rw [if_neg (by simp [hhf]), hr.2.2.1 cl.seqnum fun x hx => (hcne x hx).symm]
          exact hproj.2.1
        · exact hr.2.1 cl hcl
      · intro j hj
        rw [hr.2.2.1 j fun x hx => hj x (List.mem_cons_of_mem c hx)]
        exact hproj.2.2.1 j (hj c (List.mem_cons_self c rest)).symm
      · rw [hr.2.2.2.1, hproj.2.2.2.1]
      · rw [hr.2.2.2.2.1, hproj.2.2.2.2]
      · rw [hr.2.2.2.2.2]
        have hfc : getPend (print_line_cells tb ln rest r1.1 0
            (pending || (getPend r1.1 c.seqnum).buf.isSome)).1 c.seqnum =
            getPend r1.1 c.seqnum :=
          hr.2.2.1 c.seqnum fun x hx => (hcne x hx).symm
        simp only [List.any_cons, hh, Bool.not_false, Bool.true_and, hfc]
        cases pending <;> cases hsome : (getPend r1.1 c.seqnum).buf.isSome <;> simp

/-- C2 (amended): for a human-format row over columns with distinct sequence
indices, no custom wrap, no tree columns, valid cell text, positive visible
widths, overflow only on truncating or wrapping columns, and no pending
data on entry, print_line advances the terminal-line counter by exactly
maxWrapLines tb ln: the maximum over wrap-enabled, non-truncating,
non-custom-wrap visible columns of ceil(displayWidth(value)/columnWidth)
minus one.  The claim's own formula (maxWrapLinesClaim, which keeps
truncating columns in the maximum) overcounts whenever a column both wraps
and truncates, since truncation wins and leaves nothing pending. -/
theorem c2_continuation_lines (tb : Table) (ln : Row) (st : RState)
    (hfmt : tb.format = .human)
    (hcw : ∀ cl ∈ tb.cols, cl.wrap_nextchunk = none)
    (htree : ∀ cl ∈ tb.cols, cl.isTree = false)
    (hval : ∀ cl ∈ tb.cols, validStr (cell_data ln cl.seqnum) = true)
    (hw : ∀ cl ∈ tb.cols, cl.isHidden = false → 0 < cl.width)
    (hover : ∀ cl ∈ tb.cols, cl.isHidden = false →
      cl.width < mwidth (cell_data ln cl.seqnum) →
      cl.isTrunc = true ∨ cl.isWrap = true)
    (hp : ∀ cl ∈ tb.cols, getPend st cl.seqnum = {})
    (hdisj : tb.cols.Pairwise (fun a b => a.seqnum ≠ b.seqnum))
    (hlen : ∀ cl ∈ tb.cols, cl.seqnum < st.pends.length) :
    (print_line tb ln st).1.termlines_used =
      st.termlines_used + maxWrapLines tb ln := by
  obtain ⟨hrc, hpend, hframe, hterm, hlen2, hflag0⟩ :=
    print_line_cells_pass tb ln tb.cols st false hfmt hcw htree hval hw hover hp hdisj hlen
  set r := print_line_cells tb ln tb.cols st 0 false with hr
  have hgood1 : ∀ cl ∈ tb.cols, goodPend cl (getPend r.1 cl.seqnum) := by
    intro cl hcl
    rw [hpend cl hcl]
    by_cases hh : cl.isHidden = true
    · rw [if_pos hh]
      exact Or.inl rfl
    · have hhf : cl.isHidden = false := by simp at hh; exact hh
      rw [if_neg hh]
      unfold firstPend
      by_cases hcnd : cl.isWrap = true ∧ cl.isTrunc = false ∧
          cl.width < mwidth (cell_data ln cl.seqnum)
      · rw [if_pos hcnd]
        right
        refine ⟨cell_data ln cl.seqnum, rfl, hval cl hcl, ?_, ?_,
          hw cl hcl hhf, hcnd.1, hcw cl hcl, hhf⟩
        · show cl.width < (cell_data ln cl.seqnum).length
          exact hcnd.2.2
        · rfl
      · rw [if_neg hcnd]
        exact Or.inl rfl
  have hfg : ∀ cl ∈ tb.cols,
      drainCount cl (getPend r.1 cl.seqnum) =
      (if !cl.isHidden && cl.isWrap && !cl.isTrunc &&
          !(scols_column_is_customwrap cl) then
        ceilDiv (mwidth (cell_data ln cl.seqnum)) cl.width - 1
      else 0) := by
    intro cl hcl
    rw [hpend cl hcl]
    by_cases hh : cl.isHidden = true
    · rw [if_pos hh]
      simp [drainCount, hh]
    · have hhf : cl.isHidden = false := by simp at hh; exact hh
      rw [if_neg hh]
      unfold firstPend
      by_cases hcnd : cl.isWrap = true ∧ cl.isTrunc = false ∧
          cl.width < mwidth (cell_data ln cl.seqnum)
      · rw [if_pos hcnd, if_pos (show (!cl.isHidden && cl.isWrap && !cl.isTrunc &&
            !(scols_column_is_customwrap cl)) = true by
          simp [hhf, hcnd.1, hcnd.2.1, scols_column_is_customwrap, hcw cl hcl])]
        have hdc : drainCount cl
            { buf := some (cell_data ln cl.seqnum), off := cl.width,
              sz := (cell_data ln cl.seqnum).length - cl.width } =
            ceilDiv (mwidth (cell_data ln cl.seqnum) - cl.width) cl.width := rfl
        rw [hdc, ceilDiv_sub_self _ _ (hw cl hcl hhf) hcnd.2.2]
      · rw [if_neg hcnd]
        split_ifs with hc
        · simp only [Bool.and_eq_true, Bool.not_eq_true'] at hc
          have hle : mwidth (cell_data ln cl.seqnum) ≤ cl.width := by
            by_contra hlt
            exact hcnd ⟨hc.1.1.2, hc.1.2, by omega⟩
          have h1 := ceilDiv_le_one (mwidth (cell_data ln cl.seqnum)) cl.width hle
          have h0 : drainCount cl ({} : ColPending) = 0 := rfl
          rw [h0]
          omega
        · rfl
  have hmax1 : maxDrain tb.cols r.1 = maxWrapLines tb ln := by
    show tb.cols.foldr
        (fun cl m => max (drainCount cl (getPend r.1 cl.seqnum)) m) 0 =
      tb.cols.foldr
        (fun cl m => max
          (if !cl.isHidden && cl.isWrap && !cl.isTrunc &&
              !(scols_column_is_customwrap cl) then
            ceilDiv (mwidth (cell_data ln cl.seqnum)) cl.width - 1
          else 0) m) 0
    exact foldr_max_congr tb.cols _ _ hfg
  have hlen1 : ∀ cl ∈ tb.cols, cl.seqnum < r.1.pends.length := by
    intro cl hcl
    rw [hlen2]
    exact hlen cl hcl
  have hfuel : maxDrain tb.cols r.1 < line_fuel r.1 := by
    have hle : maxDrain tb.cols r.1 ≤ (r.1.pends.map ColPending.sz).sum := by
      refine foldr_max_le tb.cols _ _ ?_
      intro cl hcl
      have hg := hgood1 cl hcl
      have hlt := hlen1 cl hcl
      have hmem : getPend r.1 cl.seqnum ∈ r.1.pends := by
        unfold getPend
        rw [List.get?_eq_getElem?, List.getElem?_eq_getElem hlt]
        exact List.getElem_mem hlt
      have h2 : (getPend r.1 cl.seqnum).sz ≤ (r.1.pends.map ColPending.sz).sum :=
        List.single_le_sum (fun x _ => Nat.zero_le x) _
          (List.mem_map_of_mem ColPending.sz hmem)
      rcases hg with hnone | ⟨b, hb, _, _, _, hww, _, _, _⟩
      · have h0 : drainCount cl (getPend r.1 cl.seqnum) = 0 := by
          simp [drainCount, hnone]
        omega
      · have h1 : drainCount cl (getPend r.1 cl.seqnum) ≤ (getPend r.1 cl.seqnum).sz := by
          simp only [drainCount, hb]
          exact ceilDiv_le_self _ _ hww
        omega
    unfold line_fuel
    omega
  have hloop := pending_loop_count tb ln (maxDrain tb.cols r.1) (line_fuel r.1) r.1
    hgood1 hdisj hlen1 rfl hfuel
  have hflag : r.2.2 = pendFlag tb.cols r.1 := by
    rw [hflag0, Bool.false_or]
    rfl
  have hpl : print_line tb ln st =
      ((pending_loop tb ln (line_fuel r.1) r.1 r.2.1 r.2.2).1, 0) := by
    rw [hr]
    rfl
  calc (print_line tb ln st).1.termlines_used
      = (pending_loop tb ln (line_fuel r.1) r.1 r.2.1 r.2.2).1.termlines_used := by
        rw [hpl]
    _ = (pending_loop tb ln (line_fuel r.1) r.1 0
          (pendFlag tb.cols r.1)).1.termlines_used := by
        rw [hrc, hflag]
    _ = r.1.termlines_used + maxDrain tb.cols r.1 := hloop.1
    _ = st.termlines_used + maxWrapLines tb ln := by
        rw [hterm, hmax1]

/-- C2 witness column: visible, wrapping, not truncating, width 2. -/
def c2colW : Column := { seqnum := 0, width := 2, isWrap := true }

/-- C2 witness table: the single wrapping column, human format. -/
def c2tbW : Table := { cols := [c2colW] }

/-- C2 witness row: five cells of text in the wrapping column. -/
def c2lnW : Row := { cells := [some { data := some (mstr "abcde") }] }

/-- C2 witness initial render state: one empty pending slot. -/
def c2stW : RState := { pends := [{}] }

/-- C2 witness: on the concrete one-column table, "abcde" in a wrapping
width-2 column costs ceil(5/2) - 1 = 2 continuation lines, as the theorem
computes. -/
theorem c2_continuation_lines_witness :
    (print_line c2tbW c2lnW c2stW).1.termlines_used =
      c2stW.termlines_used + maxWrapLines c2tbW c2lnW ∧
    maxWrapLines c2tbW c2lnW = 2 :=
  ⟨c2_continuation_lines c2tbW c2lnW c2stW rfl
    (fun cl hcl => by rcases List.mem_singleton.mp hcl with rfl; rfl)
    (fun cl hcl => by rcases List.mem_singleton.mp hcl with rfl; rfl)
    (fun cl hcl => by rcases List.mem_singleton.mp hcl with rfl; decide)
    (fun cl hcl => by rcases List.mem_singleton.mp hcl with rfl; decide)
    (fun cl hcl => by rcases List.mem_singleton.mp hcl with rfl; decide)
    (fun cl hcl => by rcases List.mem_singleton.mp hcl with rfl; decide)
    (List.pairwise_singleton _ _)
    (fun cl hcl => by rcases List.mem_singleton.mp hcl with rfl; decide),
   by decide⟩

/-- C2 counterexample column: wraps and truncates, width 1. -/
def c2colX : Column := { seqnum := 0, width := 1, isTrunc := true, isWrap := true }

/-- C2 counterexample table: the single wrap-plus-truncate column. -/
def c2tbX : Table := { cols := [c2colX] }

/-- C2 counterexample row: two cells of text in the width-1 column. -/
def c2lnX : Row := { cells := [some { data := some (mstr "ab") }] }

/-- C2 counterexample initial render state: one empty pending slot. -/
def c2stX : RState := { pends := [{}] }

/-- C2 counterexample: on a column that both wraps and truncates, the
claim's formula predicts ceil(2/1) - 1 = 1 continuation line, but print_line
truncates the cell and emits none — the terminal-line counter does not
move. -/
theorem c2_counterexample :
    maxWrapLinesClaim c2tbX c2lnX = 1 ∧
    (print_line c2tbX c2lnX c2stX).1.termlines_used = c2stX.termlines_used := by
  decide
